import Mathlib

/-!
Shallow embedding of the NYC taxi data-cleaning pipeline
(src/data/data_cleaner.py, class NYCTaxiDataCleaner) and proofs about it.

Modelling conventions:
* A data frame is a Lean list of records; pandas float values are modelled
  as exact rationals.  A value that pandas would represent as NaN/null is
  modelled as the value none of an Option type; pandas comparisons with
  NaN yield False, which the o-prefixed comparison helpers reproduce.
* Timestamps: the input contract (spec section 6) requires timestamps that
  parse in the whole-second format YYYY-MM-DD HH:MM:SS, so a parseable raw
  timestamp is modelled as an integer count of seconds; an unparseable raw
  value is modelled by the constructor TS.invalid, carrying a tag so that
  distinct unparseable strings stay distinct for deduplication purposes.
* pandas raising an exception (pd.to_datetime with errors=raise on a bad
  value; Python ZeroDivisionError) is modelled with Except.
* np round / pandas Series.round use round-half-to-even on the scaled
  value; rhe below is decimal round-half-to-even.
-/

/-- Round-half-to-even of a rational to an integer, the tie rule used by
numpy/pandas rounding (model of np.round at scale 1). -/
def rhe (x : ℚ) : ℤ :=
  if x - ((⌊x⌋ : ℤ) : ℚ) < 1/2 then ⌊x⌋
  else if 1/2 < x - ((⌊x⌋ : ℤ) : ℚ) then ⌊x⌋ + 1
  else if ⌊x⌋ % 2 = 0 then ⌊x⌋ else ⌊x⌋ + 1

/-- Model of Series.round(4) (normalize_and_format, data_cleaner.py line 172). -/
def round4 (x : ℚ) : ℚ := ((rhe (x * 10000) : ℤ) : ℚ) / 10000

/-- Model of Series.round(2) (tip_percentage, data_cleaner.py line 159). -/
def round2 (x : ℚ) : ℚ := ((rhe (x * 100) : ℤ) : ℚ) / 100

theorem rhe_intCast (n : ℤ) : rhe (n : ℚ) = n := by
  unfold rhe
  norm_num

theorem rhe_ge (x : ℚ) : ⌊x⌋ ≤ rhe x := by
  unfold rhe
  split
  · omega
  · split
    · omega
    · split <;> omega

theorem rhe_le (x : ℚ) : rhe x ≤ ⌊x⌋ + 1 := by
  unfold rhe
  split
  · omega
  · split
    · omega
    · split <;> omega

theorem rhe_mono {x y : ℚ} (h : x ≤ y) : rhe x ≤ rhe y := by
  rcases lt_or_eq_of_le (Int.floor_le_floor h : ⌊x⌋ ≤ ⌊y⌋) with hlt | heq
  · have h1 : rhe x ≤ ⌊x⌋ + 1 := rhe_le x
    have h2 : (⌊y⌋ : ℤ) ≤ rhe y := rhe_ge y
    omega
  · have hr : x - ((⌊x⌋ : ℤ) : ℚ) ≤ y - ((⌊x⌋ : ℤ) : ℚ) := by linarith
    unfold rhe
    rw [← heq]
    by_cases hx1 : x - ((⌊x⌋ : ℤ) : ℚ) < 1/2
    · rw [if_pos hx1]
      split
      · omega
      · split
        · omega
        · split <;> omega
    · rw [if_neg hx1]
      have hy1 : ¬ (y - ((⌊x⌋ : ℤ) : ℚ) < 1/2) := fun hc => hx1 (lt_of_le_of_lt hr hc)
      rw [if_neg hy1]
      by_cases hx2 : 1/2 < x - ((⌊x⌋ : ℤ) : ℚ)
      · have hy2 : 1/2 < y - ((⌊x⌋ : ℤ) : ℚ) := lt_of_lt_of_le hx2 hr
        rw [if_pos hx2, if_pos hy2]
      · rw [if_neg hx2]
        by_cases hy2 : 1/2 < y - ((⌊x⌋ : ℤ) : ℚ)
        · rw [if_pos hy2]
          split <;> omega
        · rw [if_neg hy2]

theorem round4_intCast (n : ℤ) : round4 ((n : ℤ) : ℚ) = ((n : ℤ) : ℚ) := by
  unfold round4
  have h : ((n : ℤ) : ℚ) * 10000 = (((n * 10000 : ℤ) : ℤ) : ℚ) := by push_cast; ring
  rw [h, rhe_intCast]
  push_cast
  field_simp

theorem le_round4 {k : ℤ} {x : ℚ} (h : ((k : ℤ) : ℚ) / 10000 ≤ x) :
    ((k : ℤ) : ℚ) / 10000 ≤ round4 x := by
  unfold round4
  have hk : ((k : ℤ) : ℚ) ≤ x * 10000 := by
    have := mul_le_mul_of_nonneg_right h (by norm_num : (0:ℚ) ≤ 10000)
    calc ((k : ℤ) : ℚ) = ((k : ℤ) : ℚ) / 10000 * 10000 := by ring
      _ ≤ x * 10000 := this
  have h1 : (k : ℤ) ≤ rhe (x * 10000) := by
    calc (k : ℤ) = rhe ((k : ℤ) : ℚ) := (rhe_intCast k).symm
      _ ≤ rhe (x * 10000) := rhe_mono hk
  have h2 : ((k : ℤ) : ℚ) ≤ ((rhe (x * 10000) : ℤ) : ℚ) := by exact_mod_cast h1
  linarith

theorem round4_le {k : ℤ} {x : ℚ} (h : x ≤ ((k : ℤ) : ℚ) / 10000) :
    round4 x ≤ ((k : ℤ) : ℚ) / 10000 := by
  unfold round4
  have hk : x * 10000 ≤ ((k : ℤ) : ℚ) := by
    have := mul_le_mul_of_nonneg_right h (by norm_num : (0:ℚ) ≤ 10000)
    calc x * 10000 ≤ ((k : ℤ) : ℚ) / 10000 * 10000 := this
      _ = ((k : ℤ) : ℚ) := by ring
  have h1 : rhe (x * 10000) ≤ (k : ℤ) := by
    calc rhe (x * 10000) ≤ rhe ((k : ℤ) : ℚ) := rhe_mono hk
      _ = k := rhe_intCast k
  have h2 : ((rhe (x * 10000) : ℤ) : ℚ) ≤ ((k : ℤ) : ℚ) := by exact_mod_cast h1
  linarith

/-- Raw timestamp cell content as read from the CSV: a string that pandas
pd.to_datetime either parses (valid, whole seconds per the input contract)
or rejects (invalid; the tag keeps distinct unparseable strings distinct). -/
inductive TS
  | valid (t : ℤ)
  | invalid (tag : ℕ)
deriving DecidableEq, Repr, Inhabited

/-- Which optional columns exist in the source schema; branches in the
cleaner test column membership with, for example,
if trip_distance in self.df.columns. -/
structure Schema where
  hasPassengerCount : Bool
  hasTripDistance : Bool
  hasFareAmount : Bool
  hasTipAmount : Bool
deriving DecidableEq, Repr, Inhabited

/-- One raw CSV row (the columns the spec names; rid models the textual id
column, which is not numeric and is never touched by the cleaner).
A none field is a null/NaN cell. -/
structure RawRecord where
  rid : ℕ
  pickup_datetime : Option TS
  dropoff_datetime : Option TS
  pickup_longitude : Option ℚ
  pickup_latitude : Option ℚ
  dropoff_longitude : Option ℚ
  dropoff_latitude : Option ℚ
  passenger_count : Option ℚ
  trip_distance : Option ℚ
  fare_amount : Option ℚ
  tip_amount : Option ℚ
deriving DecidableEq, Repr, Inhabited

/-- A row after handle_outliers_and_invalid_records has run pd.to_datetime
on both timestamp columns (so they are datetimes, none = NaT) and added
trip_duration_seconds (none = NaN, arising from a NaT operand). -/
structure VRecord where
  rid : ℕ
  pickup_datetime : Option ℤ
  dropoff_datetime : Option ℤ
  pickup_longitude : Option ℚ
  pickup_latitude : Option ℚ
  dropoff_longitude : Option ℚ
  dropoff_latitude : Option ℚ
  passenger_count : Option ℚ
  trip_distance : Option ℚ
  fare_amount : Option ℚ
  tip_amount : Option ℚ
  trip_duration_seconds : Option ℚ
deriving DecidableEq, Repr, Inhabited

/-- A row after create_derived_features. -/
structure DRecord extends VRecord where
  trip_distance_km : Option ℚ
  trip_speed_kmh : Option ℚ
  fare_per_km : Option ℚ
  hour_of_day : Option ℤ
  day_of_week : Option ℤ
  time_period : String
  distance_category : Option String
  tip_percentage : Option ℚ
deriving DecidableEq, Repr, Inhabited

/-- An entry of self.excluded_records: stages 2 and 3 append raw rows,
stage 4 appends rows already carrying parsed datetimes and the duration. -/
inductive ExRec
  | raw (r : RawRecord)
  | parsed (v : VRecord)
deriving DecidableEq, Repr, Inhabited

/-- The self.cleaning_stats dictionary once all stages have written their keys. -/
structure Stats where
  original_count : ℕ
  missing_values_removed : ℕ
  duplicates_removed : ℕ
  outliers_removed : ℕ
  final_count : ℕ
deriving DecidableEq, Repr, Inhabited

/-- Exceptions the pipeline can raise: pd.to_datetime(errors=raise) on an
unparseable string, and Python ZeroDivisionError in the report. -/
inductive PErr
  | unparseableTimestamp
  | zeroDivisionError
deriving DecidableEq, Repr, Inhabited

/-- The excluded-record artifact written by save_excluded_records. -/
structure ExcludedLog where
  count : ℕ
  records : List ExRec
deriving DecidableEq, Repr, Inhabited

/-- The cleaning report (timestamp and column lists carry no verifiable
content and are omitted; retention_rate keeps the exact ratio the f-string
formats). -/
structure Report where
  statistics : Stats
  retention_rate : ℚ
deriving DecidableEq, Repr, Inhabited

/-- Everything process_all leaves behind: the cleaned records, the full
self.excluded_records list, the capped log file, statistics, report. -/
structure PipelineOutput where
  records : List DRecord
  excluded_records : List ExRec
  log : ExcludedLog
  stats : Stats
  report : Report
deriving DecidableEq, Repr, Inhabited

/-- pandas comparison series-lt-scalar: NaN (none) compares False. -/
def oLt (a : Option ℚ) (c : ℚ) : Bool :=
  match a with
  | some x => decide (x < c)
  | none => false

/-- pandas comparison series-gt-scalar: NaN (none) compares False. -/
def oGt (a : Option ℚ) (c : ℚ) : Bool :=
  match a with
  | some x => decide (c < x)
  | none => false

/-- pandas comparison series-le-scalar: NaN (none) compares False. -/
def oLe (a : Option ℚ) (c : ℚ) : Bool :=
  match a with
  | some x => decide (x ≤ c)
  | none => false

/-- pandas comparison series-eq-scalar: NaN (none) compares False. -/
def oEq (a : Option ℚ) (c : ℚ) : Bool :=
  match a with
  | some x => decide (x = c)
  | none => false

/-- Mask of handle_missing_values (data_cleaner.py lines 27-31): any of the
six critical fields null. -/
def hasMissingCritical (r : RawRecord) : Bool :=
  r.pickup_datetime.isNone || r.dropoff_datetime.isNone ||
  r.pickup_longitude.isNone || r.pickup_latitude.isNone ||
  r.dropoff_longitude.isNone || r.dropoff_latitude.isNone

/-- The fillna(1) imputation on passenger_count applied to survivors
(data_cleaner.py lines 38-39), a per-row map. -/
def fillPassenger (sch : Schema) (r : RawRecord) : RawRecord :=
  if sch.hasPassengerCount then
    { r with passenger_count := some (r.passenger_count.getD 1) }
  else r

/-- Stage 2, handle_missing_values (data_cleaner.py lines 22-43): drop rows
with a null critical field, append them to the exclusion list, impute
passenger_count = 1 on survivors.  Returns (kept, newly excluded). -/
def handle_missing_values (sch : Schema) (l : List RawRecord) :
    List RawRecord × List RawRecord :=
  ((l.filter (fun r => !hasMissingCritical r)).map (fillPassenger sch),
   l.filter (fun r => hasMissingCritical r))

/-- The duplicate_cols subset of remove_duplicates (data_cleaner.py lines
50-51): pickup_datetime, dropoff_datetime, pickup_longitude, pickup_latitude. -/
def dupKey (r : RawRecord) : Option TS × Option TS × Option ℚ × Option ℚ :=
  (r.pickup_datetime, r.dropoff_datetime, r.pickup_longitude, r.pickup_latitude)

/-- Core of stage 3: one pass with the set of keys already seen, keeping a
row iff its key is new, collecting later occurrences in input order —
the semantics of df.duplicated(subset, keep=first) / drop_duplicates,
which pandas implements with a hash table of first-seen keys. -/
def dedupGo (seen : List (Option TS × Option TS × Option ℚ × Option ℚ)) :
    List RawRecord → List RawRecord × List RawRecord
  | [] => ([], [])
  | r :: rs =>
    if dupKey r ∈ seen then
      let p := dedupGo seen rs
      (p.1, r :: p.2)
    else
      let p := dedupGo (dupKey r :: seen) rs
      (r :: p.1, p.2)

/-- Stage 3, remove_duplicates (data_cleaner.py lines 45-60).
Returns (kept, newly excluded). -/
def remove_duplicates (l : List RawRecord) : List RawRecord × List RawRecord :=
  dedupGo [] l

/-- pd.to_datetime with the default errors=raise on one cell: null
propagates as NaT, a parseable string parses, an unparseable string raises. -/
def parseTS : Option TS → Except PErr (Option ℤ)
  | none => .ok none
  | some (.valid t) => .ok (some t)
  | some (.invalid _) => .error .unparseableTimestamp

/-- Lines 67-72 of data_cleaner.py applied to one row: parse both
timestamps, then trip_duration_seconds = (dropoff - pickup).total_seconds()
(NaN when an operand is NaT). -/
def parseRecord (r : RawRecord) : Except PErr VRecord := do
  let p ← parseTS r.pickup_datetime
  let d ← parseTS r.dropoff_datetime
  pure { rid := r.rid
         pickup_datetime := p
         dropoff_datetime := d
         pickup_longitude := r.pickup_longitude
         pickup_latitude := r.pickup_latitude
         dropoff_longitude := r.dropoff_longitude
         dropoff_latitude := r.dropoff_latitude
         passenger_count := r.passenger_count
         trip_distance := r.trip_distance
         fare_amount := r.fare_amount
         tip_amount := r.tip_amount
         trip_duration_seconds :=
           match p, d with
           | some a, some b => some (((b - a : ℤ) : ℚ))
           | _, _ => none }

/-- The literal 40.5 of the source in reduced-fraction constructor form:
the elaborator cannot evaluate scientific rational literals (their
normalization is gcd-based), while constructor form keeps concrete runs
of the pipeline computable; the q-equation theorems certify the values. -/
def q40_5 : ℚ := ⟨81, 2, by norm_num, by norm_num⟩

/-- The literal -74.3 of the source in constructor form. -/
def qm74_3 : ℚ := ⟨-743, 10, by norm_num, by norm_num⟩

/-- The literal -73.7 of the source in constructor form. -/
def qm73_7 : ℚ := ⟨-737, 10, by norm_num, by norm_num⟩

theorem q40_5_eq : q40_5 = 40.5 := by
  rw [← Rat.num_div_den q40_5]
  norm_num [q40_5]

theorem qm74_3_eq : qm74_3 = -74.3 := by
  rw [← Rat.num_div_den qm74_3]
  norm_num [qm74_3]

theorem qm73_7_eq : qm73_7 = -73.7 := by
  rw [← Rat.num_div_den qm73_7]
  norm_num [qm73_7]

/-- The invalid_conditions mask of handle_outliers_and_invalid_records
(data_cleaner.py lines 74-101), including the schema-guarded optional
blocks; all comparisons are pandas NaN-is-False comparisons. -/
def invalidRecord (sch : Schema) (v : VRecord) : Bool :=
  (oLe v.trip_duration_seconds 0 || oGt v.trip_duration_seconds 86400 ||
   oLt v.pickup_latitude q40_5 || oGt v.pickup_latitude 41 ||
   oLt v.pickup_longitude qm74_3 || oGt v.pickup_longitude qm73_7 ||
   oLt v.dropoff_latitude q40_5 || oGt v.dropoff_latitude 41 ||
   oLt v.dropoff_longitude qm74_3 || oGt v.dropoff_longitude qm73_7 ||
   oEq v.pickup_latitude 0 || oEq v.pickup_longitude 0 ||
   oEq v.dropoff_latitude 0 || oEq v.dropoff_longitude 0) ||
  (sch.hasTripDistance && (oLe v.trip_distance 0 || oGt v.trip_distance 100)) ||
  (sch.hasFareAmount && (oLt v.fare_amount 0 || oGt v.fare_amount 500)) ||
  (sch.hasPassengerCount && (oLe v.passenger_count 0 || oGt v.passenger_count 7))

/-- Stage 4, handle_outliers_and_invalid_records (data_cleaner.py lines
62-110): parse timestamps (raising on any unparseable cell), derive the
duration, split the frame by the invalid mask.  Returns (kept, newly
excluded). -/
def handle_outliers_and_invalid_records (sch : Schema) (l : List RawRecord) :
    Except PErr (List VRecord × List VRecord) := do
  let parsed ← l.mapM parseRecord
  pure (parsed.filter (fun v => !invalidRecord sch v),
        parsed.filter (fun v => invalidRecord sch v))

/-- get_time_period (data_cleaner.py lines 131-139). -/
def get_time_period (h : ℤ) : String :=
  if 6 ≤ h ∧ h < 12 then "morning"
  else if 12 ≤ h ∧ h < 18 then "afternoon"
  else if 18 ≤ h ∧ h < 22 then "evening"
  else "night"

/-- categorize_distance (data_cleaner.py lines 144-152). -/
def categorize_distance (d : ℚ) : String :=
  if d < 1 then "very_short"
  else if d < 3 then "short"
  else if d < 10 then "medium"
  else "long"

/-- Stage 5 on one row (create_derived_features, data_cleaner.py lines
112-163).  NaN propagation notes: with a NaN operand the computed value is
NaN, hence none; a zero duration makes trip_speed_kmh inf, -inf or NaN in
pandas, each of which the two .loc nulling steps or NaN-ness itself turn
into null, hence none uniformly; get_time_period applied to a NaN hour
returns night because every comparison with NaN is False; NaN distance
falls through categorize_distance to long the same way; and the
tip_percentage .loc overwrite fires on fare == 0 even when the division
produced NaN. -/
def deriveRecord (sch : Schema) (v : VRecord) : DRecord :=
  let dkm : Option ℚ :=
    if sch.hasTripDistance then v.trip_distance.map (fun d => d * 1.60934) else none
  let spd : Option ℚ :=
    if sch.hasTripDistance then
      match dkm, v.trip_duration_seconds with
      | some dk, some du =>
        if du = 0 then none
        else
          let s := dk / (du / 3600)
          if 120 < s ∨ s < 0 then none else some s
      | _, _ => none
    else none
  let fpk : Option ℚ :=
    if sch.hasFareAmount && sch.hasTripDistance then
      match v.fare_amount, dkm with
      | some f, some dk => if dk = 0 then none else some (f / dk)
      | _, _ => none
    else none
  let hod : Option ℤ := v.pickup_datetime.map (fun t => (t.fdiv 3600).emod 24)
  let dow : Option ℤ := v.pickup_datetime.map (fun t => (t.fdiv 86400 + 3).emod 7)
  let tper : String :=
    match hod with
    | some h => get_time_period h
    | none => "night"
  let dcat : Option String :=
    if sch.hasTripDistance then
      some (match v.trip_distance with
            | some d => categorize_distance d
            | none => "long")
    else none
  let tippct : Option ℚ :=
    if sch.hasTipAmount && sch.hasFareAmount then
      match v.fare_amount with
      | some f =>
        if f = 0 then some 0
        else
          match v.tip_amount with
          | some t => some (round2 (t / f * 100))
          | none => none
      | none => none
    else none
  { toVRecord := v
    trip_distance_km := dkm
    trip_speed_kmh := spd
    fare_per_km := fpk
    hour_of_day := hod
    day_of_week := dow
    time_period := tper
    distance_category := dcat
    tip_percentage := tippct }

/-- Stage 5, create_derived_features: no row is dropped, fields are added. -/
def create_derived_features (sch : Schema) (l : List VRecord) : List DRecord :=
  l.map (deriveRecord sch)

/-! Model of numpy aquicksort_ (npysort/quicksort.c.src), the introsort
behind np.argsort(kind=quicksort), which is what
df.sort_values('pickup_datetime') runs (pandas nargsort with the default
kind).  The permutation of row positions is threaded as a list tosort of
indices into the key column; all index accesses use getD because the C
code's pointer accesses are always in range in real executions, and the
fuel arguments strictly dominate the bounded iteration counts of the C
loops for every reachable input. -/

/-- Key lookup v[tosort-entry]: keys are the int64 datetime column. -/
def keyAt (keys : List ℤ) (t : List ℕ) (i : ℕ) : ℤ :=
  keys.getD (t.getD i 0) 0

/-- INTP_SWAP of two positions of the tosort list (identity out of range). -/
def lswap (l : List ℕ) (i j : ℕ) : List ℕ :=
  match l[i]?, l[j]? with
  | some a, some b => (l.set i b).set j a
  | _, _ => l

/-- The tosort segment with inclusive bounds [pl, pr]. -/
def segOf (l : List ℕ) (pl pr : ℤ) : List ℕ :=
  (l.drop pl.toNat).take (pr - pl + 1).toNat

/-- Overwrite the positions starting at pl with the list s. -/
def segWrite (l : List ℕ) (pl : ℤ) (s : List ℕ) : List ℕ :=
  l.take pl.toNat ++ s ++ l.drop (pl.toNat + s.length)

/-- Insert index i into the already sorted prefix: the insertion-sort body
of aquicksort_ shifts the prefix right while vp < v[*pk] (strict), so i
lands after every entry whose key is ≤ its own — the position this
left-to-right scan computes. -/
def insIdx (keys : List ℤ) (i : ℕ) : List ℕ → List ℕ
  | [] => [i]
  | j :: r =>
    if keys.getD i 0 < keys.getD j 0 then i :: j :: r
    else j :: insIdx keys i r

/-- The insertion sort the small-segment branch of aquicksort_ performs,
processing the segment left to right. -/
def insSortIdx (keys : List ℤ) (l : List ℕ) : List ℕ :=
  l.foldl (fun acc i => insIdx keys i acc) []

/-- do ++pi while v[*pi] < vp  (partition left scan). -/
def scanUp (keys : List ℤ) (t : List ℕ) (vp : ℤ) : ℕ → ℕ → ℕ
  | 0, i => i + 1
  | fuel + 1, i =>
    if keyAt keys t (i + 1) < vp then scanUp keys t vp fuel (i + 1) else i + 1

/-- do --pj while vp < v[*pj]  (partition right scan). -/
def scanDown (keys : List ℤ) (t : List ℕ) (vp : ℤ) : ℕ → ℕ → ℕ
  | 0, j => j - 1
  | fuel + 1, j =>
    if vp < keyAt keys t (j - 1) then scanDown keys t vp fuel (j - 1) else j - 1

/-- The partition exchange loop of aquicksort_ (lines: for(;;){do ++pi ...;
do --pj ...; if pi >= pj break; swap}).  Returns the array and final pi. -/
def partitionLoop (keys : List ℤ) (vp : ℤ) :
    ℕ → List ℕ → ℕ → ℕ → List ℕ × ℕ
  | 0, t, pi, _ => (t, pi)
  | fuel + 1, t, pi, pj =>
    if scanDown keys t vp t.length pj ≤ scanUp keys t vp t.length pi then
      (t, scanUp keys t vp t.length pi)
    else
      partitionLoop keys vp fuel
        (lswap t (scanUp keys t vp t.length pi) (scanDown keys t vp t.length pj))
        (scanUp keys t vp t.length pi) (scanDown keys t vp t.length pj)

/-- One quicksort partition of aquicksort_ on segment [pl, pr]:
median-of-three pivot selection with conditional swaps, pivot parked at
pr-1, exchange loop, final swap of pi with pr-1.  Returns (tosort, pi). -/
def partStep (keys : List ℤ) (t : List ℕ) (pl pr : ℤ) : List ℕ × ℤ :=
  let pln := pl.toNat
  let prn := pr.toNat
  let pm := pln + (prn - pln) / 2
  let t1 := if keyAt keys t pm < keyAt keys t pln then lswap t pm pln else t
  let t2 := if keyAt keys t1 prn < keyAt keys t1 pm then lswap t1 prn pm else t1
  let t3 := if keyAt keys t2 pm < keyAt keys t2 pln then lswap t2 pm pln else t2
  let vp := keyAt keys t3 pm
  let t4 := lswap t3 pm (prn - 1)
  let p := partitionLoop keys vp t4.length t4 pln (prn - 1)
  let t6 := lswap p.1 p.2 (prn - 1)
  (t6, (p.2 : ℤ))

/-- Sift-down of aheapsort_ with 1-based heap indices over a segment list
(entry k of the heap is position k-1 of the segment).  The C code carries
the root value in tmp and shifts children up, writing tmp at the end; the
swap formulation used here moves the same value along the same
comparison path and produces the same segment. -/
def sdChild (keys : List ℤ) (s : List ℕ) (i n : ℕ) : ℕ :=
  if 2 * i < n ∧ keys.getD (s.getD (2 * i - 1) 0) 0 < keys.getD (s.getD (2 * i) 0) 0
  then 2 * i + 1 else 2 * i

def siftDown (keys : List ℤ) : ℕ → List ℕ → ℕ → ℕ → List ℕ
  | 0, s, _, _ => s
  | fuel + 1, s, i, n =>
    if 2 * i ≤ n then
      if keys.getD (s.getD (i - 1) 0) 0 <
          keys.getD (s.getD (sdChild keys s i n - 1) 0) 0 then
        siftDown keys fuel (lswap s (i - 1) (sdChild keys s i n - 1)) (sdChild keys s i n) n
      else s
    else s

/-- aheapsort_ on a segment: heapify from n/2 down to 1, then repeatedly
swap the root with the last heap entry and sift. -/
def heapSortSeg (keys : List ℤ) (s : List ℕ) : List ℕ :=
  let n := s.length
  let built := (List.range (n / 2)).foldl
    (fun acc k => siftDown keys (acc.length + 1) acc (n / 2 - k) n) s
  (List.range (n - 1)).foldl
    (fun acc k =>
      let m := n - k
      siftDown keys (acc.length + 1) (lswap acc 0 (m - 1)) 1 (m - 1))
    built

/-- The driver loop of aquicksort_: explicit segment stack, SMALL_QUICKSORT
= 15 cutoff to insertion sort, depth counter (decremented once per
partition test) switching to aheapsort_ when exhausted. -/
def introLoop (keys : List ℤ) :
    ℕ → List ℕ → ℤ → ℤ → List (ℤ × ℤ) → ℤ → List ℕ
  | 0, t, _, _, _, _ => t
  | fuel + 1, t, pl, pr, stk, depth =>
    if 15 < pr - pl then
      if depth < 0 then
        match stk with
        | [] => segWrite t pl (heapSortSeg keys (segOf t pl pr))
        | (a, b) :: rest =>
            introLoop keys fuel (segWrite t pl (heapSortSeg keys (segOf t pl pr)))
              a b rest (depth - 1)
      else
        if (partStep keys t pl pr).2 - pl < pr - (partStep keys t pl pr).2 then
          introLoop keys fuel (partStep keys t pl pr).1 pl ((partStep keys t pl pr).2 - 1)
            (((partStep keys t pl pr).2 + 1, pr) :: stk) (depth - 1)
        else
          introLoop keys fuel (partStep keys t pl pr).1 ((partStep keys t pl pr).2 + 1) pr
            ((pl, (partStep keys t pl pr).2 - 1) :: stk) (depth - 1)
    else
      match stk with
      | [] => segWrite t pl (insSortIdx keys (segOf t pl pr))
      | (a, b) :: rest =>
          introLoop keys fuel (segWrite t pl (insSortIdx keys (segOf t pl pr)))
            a b rest depth

/-- npy_get_msb: the position of the highest set bit, i.e. floor(log2 n),
written with structural fuel recursion so that it evaluates by reduction. -/
def msbAux : ℕ → ℕ → ℕ
  | 0, _ => 0
  | fuel + 1, n => if 2 ≤ n then msbAux fuel (n / 2) + 1 else 0

/-- npy_get_msb of aquicksort_. -/
def msb (n : ℕ) : ℕ := msbAux n n

/-- np.argsort(kind=quicksort) on an int64 column: aquicksort_ started on
tosort = identity with depth limit 2 * msb(n).  The fuel n * n + 64
strictly dominates the at most about 3n+2 loop iterations any run takes. -/
def npArgsortInt (keys : List ℤ) : List ℕ :=
  let n := keys.length
  introLoop keys (n * n + 64) (List.range n) 0 ((n : ℤ) - 1) [] (2 * (msb n : ℤ))

/-- pandas nargsort for a column that may contain NaT: argsort the compacted
non-null values, map the result back through the non-null row positions,
and append the null positions at the end (na_position=last). -/
def sortIndexer (keys : List (Option ℤ)) : List ℕ :=
  let n := keys.length
  let nonNullIdx := (List.range n).filter (fun i => (keys.getD i none).isSome)
  let nullIdx := (List.range n).filter (fun i => !(keys.getD i none).isSome)
  let compact := keys.filterMap id
  (npArgsortInt compact).map (fun p => nonNullIdx.getD p 0) ++ nullIdx

/-- Python int(float) truncation toward zero, the cast astype(int)
applies (Int.tdiv is truncating division; the den is positive, and for
the in-range positive passenger counts truncation and floor agree).
astype raising on NaN is not modelled: when the column exists, fillna(1)
has already made every surviving passenger_count non-null. -/
def truncQ (q : ℚ) : ℤ := q.num.tdiv (q.den : ℤ)

/-- The per-row part of normalize_and_format (data_cleaner.py lines
169-175): round every numeric column except passenger_count to 4 decimals
(hour_of_day and day_of_week are integer-valued, on which round(4) is the
identity, and both datetime columns and the id and string columns are not
numeric), then cast passenger_count to int when that column exists. -/
def roundRecord (sch : Schema) (r : DRecord) : DRecord :=
  { r with
    pickup_longitude := r.pickup_longitude.map round4
    pickup_latitude := r.pickup_latitude.map round4
    dropoff_longitude := r.dropoff_longitude.map round4
    dropoff_latitude := r.dropoff_latitude.map round4
    passenger_count :=
      if sch.hasPassengerCount then r.passenger_count.map (fun q => ((truncQ q : ℤ) : ℚ))
      else r.passenger_count
    trip_distance := r.trip_distance.map round4
    fare_amount := r.fare_amount.map round4
    tip_amount := r.tip_amount.map round4
    trip_duration_seconds := r.trip_duration_seconds.map round4
    trip_distance_km := r.trip_distance_km.map round4
    trip_speed_kmh := r.trip_speed_kmh.map round4
    fare_per_km := r.fare_per_km.map round4
    tip_percentage := r.tip_percentage.map round4 }

/-- Stage 6, normalize_and_format (data_cleaner.py lines 165-181): round
and cast columns, then df.sort_values('pickup_datetime') — numpy
quicksort argsort on the datetime column — and reset_index. -/
def normalize_and_format (sch : Schema) (ws : List DRecord) : List DRecord :=
  let rounded := ws.map (roundRecord sch)
  let idx := sortIndexer (rounded.map (fun r => r.pickup_datetime))
  idx.filterMap (fun i => rounded[i]?)

/-- save_excluded_records (data_cleaner.py lines 190-199): full count,
records capped to the first 1000. -/
def save_excluded_records (l : List ExRec) : ExcludedLog :=
  { count := l.length, records := l.take 1000 }

/-- generate_cleaning_report (data_cleaner.py lines 201-220): the
retention-rate f-string divides final_count by original_count with Python
true division, which raises ZeroDivisionError when original_count is 0. -/
def generate_cleaning_report (s : Stats) : Except PErr Report :=
  if s.original_count = 0 then .error .zeroDivisionError
  else .ok { statistics := s
             retention_rate := (s.final_count : ℚ) / (s.original_count : ℚ) * 100 }

/-- process_all (data_cleaner.py lines 222-233): load (records
original_count), chain stages 2-6 threading self.excluded_records and
self.cleaning_stats exactly as each method computes them, then write the
exclusion log and the report (save_cleaned_data only performs file I/O). -/
def process_all (sch : Schema) (l : List RawRecord) : Except PErr PipelineOutput := do
  let original := l.length
  let s2 := handle_missing_values sch l
  let missing := original - s2.1.length
  let s3 := remove_duplicates s2.1
  let dups := s2.1.length - s3.1.length
  let s4 ← handle_outliers_and_invalid_records sch s3.1
  let outliers := s3.1.length - s4.1.length
  let derived := create_derived_features sch s4.1
  let finalRecs := normalize_and_format sch derived
  let stats : Stats :=
    { original_count := original
      missing_values_removed := missing
      duplicates_removed := dups
      outliers_removed := outliers
      final_count := finalRecs.length }
  let excludedAll := s2.2.map ExRec.raw ++ s3.2.map ExRec.raw ++ s4.2.map ExRec.parsed
  let rep ← generate_cleaning_report stats
  pure { records := finalRecs
         excluded_records := excludedAll
         log := save_excluded_records excludedAll
         stats := stats
         report := rep }

/-! Permutation facts about the argsort model: every mutation of the
tosort list is a swap or an in-place rewrite of a segment by a permutation
of itself, so the result is a permutation of the initial index list. -/

theorem cons_set_perm {α : Type} :
    ∀ (t : List α) (m : ℕ) (a b : α), t[m]? = some b →
      (b :: t.set m a).Perm (a :: t) := by
  intro t
  induction t with
  | nil =>
    intro m a b h
    simp at h
  | cons y s ih =>
    intro m a b h
    cases m with
    | zero =>
      simp at h
      subst h
      exact List.Perm.swap a y s
    | succ k =>
      simp only [List.getElem?_cons_succ] at h
      have step1 : (b :: y :: s.set k a).Perm (y :: b :: s.set k a) :=
        List.Perm.swap y b (s.set k a)
      have step2 : (y :: b :: s.set k a).Perm (y :: a :: s) :=
        List.Perm.cons y (ih k a b h)
      have step3 : (y :: a :: s).Perm (a :: y :: s) := List.Perm.swap a y s
      have : ((y :: s).set (k + 1) a) = y :: s.set k a := rfl
      rw [this]
      exact step1.trans (step2.trans step3)

theorem set_set_perm {α : Type} :
    ∀ (l : List α) (i j : ℕ) (a b : α), l[i]? = some a → l[j]? = some b →
      ((l.set i b).set j a).Perm l := by
  intro l
  induction l with
  | nil =>
    intro i j a b h1 h2
    simp at h1
  | cons x t ih =>
    intro i j a b h1 h2
    cases i with
    | zero =>
      simp at h1
      subst h1
      cases j with
      | zero =>
        simp
      | succ k =>
        simp only [List.getElem?_cons_succ] at h2
        have : (((x :: t).set 0 b).set (k + 1) x) = b :: t.set k x := rfl
        rw [this]
        exact cons_set_perm t k x b h2
    | succ m =>
      simp only [List.getElem?_cons_succ] at h1
      cases j with
      | zero =>
        simp at h2
        subst h2
        have : (((x :: t).set (m + 1) x).set 0 a) = a :: t.set m x := rfl
        rw [this]
        exact cons_set_perm t m x a h1
      | succ k =>
        simp only [List.getElem?_cons_succ] at h2
        have : (((x :: t).set (m + 1) b).set (k + 1) a) = x :: (t.set m b).set k a := rfl
        rw [this]
        exact List.Perm.cons x (ih m k a b h1 h2)

theorem lswap_perm (l : List ℕ) (i j : ℕ) : (lswap l i j).Perm l := by
  unfold lswap
  split
  · exact set_set_perm l i j _ _ (by assumption) (by assumption)
  · exact List.Perm.refl l

theorem drop_length_take {α : Type} (t : List α) (m : ℕ) :
    t.drop (t.take m).length = t.drop m := by
  rcases Nat.le_total m t.length with h | h
  · rw [List.length_take, Nat.min_eq_left h]
  · rw [List.length_take, Nat.min_eq_right h, List.drop_length,
      List.drop_eq_nil_of_le h]

theorem segWrite_perm (l : List ℕ) (pl pr : ℤ) (s : List ℕ)
    (hs : s.Perm (segOf l pl pr)) : (segWrite l pl s).Perm l := by
  unfold segWrite
  unfold segOf at hs
  have hlen : s.length = ((l.drop pl.toNat).take (pr - pl + 1).toNat).length :=
    hs.length_eq
  have hsplit : l = l.take pl.toNat ++
      ((l.drop pl.toNat).take (pr - pl + 1).toNat ++ l.drop (pl.toNat + s.length)) := by
    have h1 : (l.drop pl.toNat).take (pr - pl + 1).toNat ++
        (l.drop pl.toNat).drop ((l.drop pl.toNat).take (pr - pl + 1).toNat).length =
        l.drop pl.toNat := by
      rw [drop_length_take]
      exact List.take_append_drop _ _
    rw [← hlen] at h1
    rw [List.drop_drop] at h1
    rw [h1]
    exact (List.take_append_drop _ _).symm
  have hperm : (s ++ l.drop (pl.toNat + s.length)).Perm
      ((l.drop pl.toNat).take (pr - pl + 1).toNat ++ l.drop (pl.toNat + s.length)) :=
    hs.append_right _
  have step1 : (l.take pl.toNat ++ s ++ l.drop (pl.toNat + s.length)).Perm
      (l.take pl.toNat ++
        ((l.drop pl.toNat).take (pr - pl + 1).toNat ++ l.drop (pl.toNat + s.length))) := by
    rw [List.append_assoc]
    exact hperm.append_left _
  rw [← hsplit] at step1
  exact step1

theorem insIdx_perm (keys : List ℤ) (i : ℕ) :
    ∀ acc : List ℕ, (insIdx keys i acc).Perm (i :: acc) := by
  intro acc
  induction acc with
  | nil => simp [insIdx]
  | cons j r ih =>
    unfold insIdx
    split
    · exact List.Perm.refl _
    · exact (List.Perm.cons j ih).trans (List.Perm.swap i j r)

theorem insSortIdx_perm_aux (keys : List ℤ) :
    ∀ (l acc : List ℕ),
      (l.foldl (fun a i => insIdx keys i a) acc).Perm (acc ++ l) := by
  intro l
  induction l with
  | nil => intro acc; simp
  | cons x xs ih =>
    intro acc
    have h1 : (xs.foldl (fun a i => insIdx keys i a) (insIdx keys x acc)).Perm
        (insIdx keys x acc ++ xs) := ih (insIdx keys x acc)
    have h2 : (insIdx keys x acc ++ xs).Perm ((x :: acc) ++ xs) :=
      (insIdx_perm keys x acc).append_right xs
    have h3 : ((x :: acc) ++ xs).Perm (acc ++ x :: xs) := by
      have := @List.perm_middle _ x acc xs
      exact this.symm
    simpa [List.foldl_cons] using (h1.trans h2).trans h3

theorem insSortIdx_perm (keys : List ℤ) (l : List ℕ) :
    (insSortIdx keys l).Perm l := by
  unfold insSortIdx
  simpa using insSortIdx_perm_aux keys l []

theorem siftDown_perm (keys : List ℤ) :
    ∀ (fuel : ℕ) (s : List ℕ) (i n : ℕ), (siftDown keys fuel s i n).Perm s := by
  intro fuel
  induction fuel with
  | zero => intro s i n; exact List.Perm.refl s
  | succ f ih =>
    intro s i n
    unfold siftDown
    split
    · split
      · exact (ih _ _ _).trans (lswap_perm _ _ _)
      · exact List.Perm.refl s
    · exact List.Perm.refl s


theorem foldl_perm_acc {β : Type} (f : List ℕ → β → List ℕ)
    (hf : ∀ s k, (f s k).Perm s) :
    ∀ (ks : List β) (s : List ℕ), (ks.foldl f s).Perm s := by
  intro ks
  induction ks with
  | nil => intro s; exact List.Perm.refl s
  | cons k ks ih =>
    intro s
    exact (ih (f s k)).trans (hf s k)

theorem heapSortSeg_perm (keys : List ℤ) (s : List ℕ) :
    (heapSortSeg keys s).Perm s := by
  unfold heapSortSeg
  have h1 : ((List.range (s.length / 2)).foldl
      (fun acc k => siftDown keys (acc.length + 1) acc (s.length / 2 - k) s.length) s).Perm s :=
    foldl_perm_acc _ (fun t k => siftDown_perm keys _ t _ _) _ s
  have h2 : ∀ t k, ((fun acc k =>
      siftDown keys (acc.length + 1) (lswap acc 0 (s.length - k - 1)) 1 (s.length - k - 1)) t k).Perm t :=
    fun t k => (siftDown_perm keys _ _ _ _).trans (lswap_perm t _ _)
  exact (foldl_perm_acc _ (fun t k =>
    (siftDown_perm keys _ _ _ _).trans (lswap_perm t _ _)) _ _).trans h1

theorem partitionLoop_perm (keys : List ℤ) (vp : ℤ) :
    ∀ (fuel : ℕ) (t : List ℕ) (pi pj : ℕ),
      (partitionLoop keys vp fuel t pi pj).1.Perm t := by
  intro fuel
  induction fuel with
  | zero => intro t pi pj; exact List.Perm.refl t
  | succ f ih =>
    intro t pi pj
    unfold partitionLoop
    split
    · exact List.Perm.refl t
    · exact (ih _ _ _).trans (lswap_perm t _ _)

theorem ite_lswap_perm (c : Prop) [Decidable c] (u : List ℕ) (i j : ℕ) :
    (if c then lswap u i j else u).Perm u := by
  split
  · exact lswap_perm u i j
  · exact List.Perm.refl u

theorem partStep_perm (keys : List ℤ) (t : List ℕ) (pl pr : ℤ) :
    (partStep keys t pl pr).1.Perm t := by
  unfold partStep
  exact (lswap_perm _ _ _).trans ((partitionLoop_perm keys _ _ _ _ _).trans
    ((lswap_perm _ _ _).trans ((ite_lswap_perm _ _ _ _).trans
      ((ite_lswap_perm _ _ _ _).trans (ite_lswap_perm _ _ _ _)))))

theorem introLoop_perm (keys : List ℤ) :
    ∀ (fuel : ℕ) (t : List ℕ) (pl pr : ℤ) (stk : List (ℤ × ℤ)) (depth : ℤ),
      (introLoop keys fuel t pl pr stk depth).Perm t := by
  intro fuel
  induction fuel with
  | zero => intro t pl pr stk depth; exact List.Perm.refl t
  | succ f ih =>
    intro t pl pr stk depth
    unfold introLoop
    split
    · split
      · match stk with
        | [] =>
          exact segWrite_perm t pl pr _ (heapSortSeg_perm keys _)
        | (a, b) :: rest =>
          exact (ih _ _ _ _ _).trans (segWrite_perm t pl pr _ (heapSortSeg_perm keys _))
      · split
        · exact (ih _ _ _ _ _).trans (partStep_perm keys t pl pr)
        · exact (ih _ _ _ _ _).trans (partStep_perm keys t pl pr)
    · match stk with
      | [] =>
        exact segWrite_perm t pl pr _ (insSortIdx_perm keys _)
      | (a, b) :: rest =>
        exact (ih _ _ _ _ _).trans (segWrite_perm t pl pr _ (insSortIdx_perm keys _))

theorem npArgsortInt_perm (keys : List ℤ) :
    (npArgsortInt keys).Perm (List.range keys.length) := by
  unfold npArgsortInt
  exact introLoop_perm keys _ _ _ _ _ _

theorem npArgsortInt_length (keys : List ℤ) :
    (npArgsortInt keys).length = keys.length := by
  have := (npArgsortInt_perm keys).length_eq
  simpa using this

theorem npArgsortInt_mem_lt (keys : List ℤ) (p : ℕ) (hp : p ∈ npArgsortInt keys) :
    p < keys.length := by
  have := (npArgsortInt_perm keys).mem_iff.mp hp
  simpa using this

theorem filter_isSome_range_length :
    ∀ (keys : List (Option ℤ)),
      ((List.range keys.length).filter (fun i => (keys.getD i none).isSome)).length =
        (keys.filterMap id).length := by
  intro keys
  induction keys with
  | nil => simp
  | cons a keys ih =>
    have hr : List.range (keys.length + 1) = 0 :: (List.range keys.length).map (· + 1) :=
      List.range_succ_eq_map keys.length
    simp only [List.length_cons, hr, List.filter_cons]
    rw [List.filter_map]
    cases a with
    | none =>
      simp only [Function.comp_def, List.getD_cons_succ, List.getD_cons_zero]
      simp only [List.getD_eq_getElem?_getD] at ih
      simp [ih]
    | some x =>
      simp only [Function.comp_def, List.getD_cons_succ, List.getD_cons_zero]
      simp only [List.getD_eq_getElem?_getD] at ih
      simp [ih]

theorem map_getD_range_eq_self {α : Type} (L : List α) (d : α) :
    (List.range L.length).map (fun p => L.getD p d) = L := by
  apply List.ext_getElem
  · simp
  · intro i h1 h2
    simp [List.getD_eq_getElem?_getD, List.getElem?_eq_getElem h2]

theorem sortIndexer_perm (keys : List (Option ℤ)) :
    (sortIndexer keys).Perm (List.range keys.length) := by
  unfold sortIndexer
  have hlen : (keys.filterMap id).length =
      ((List.range keys.length).filter (fun i => (keys.getD i none).isSome)).length :=
    (filter_isSome_range_length keys).symm
  have h1 : (npArgsortInt (keys.filterMap id)).Perm
      (List.range ((List.range keys.length).filter
        (fun i => (keys.getD i none).isSome)).length) := by
    rw [← hlen]
    exact npArgsortInt_perm _
  have h2 : ((npArgsortInt (keys.filterMap id)).map
      (fun p => ((List.range keys.length).filter
        (fun i => (keys.getD i none).isSome)).getD p 0)).Perm
      ((List.range keys.length).filter (fun i => (keys.getD i none).isSome)) := by
    have := h1.map (fun p => ((List.range keys.length).filter
      (fun i => (keys.getD i none).isSome)).getD p 0)
    rw [map_getD_range_eq_self] at this
    exact this
  have h3 := h2.append_right
    ((List.range keys.length).filter (fun i => !(keys.getD i none).isSome))
  exact h3.trans (List.filter_append_perm _ _)

theorem filterMap_length_of_isSome {α β : Type} (f : α → Option β) :
    ∀ l : List α, (∀ x ∈ l, (f x).isSome) → (l.filterMap f).length = l.length := by
  intro l
  induction l with
  | nil => intro _; rfl
  | cons a l ih =>
    intro h
    have ha : (f a).isSome := h a (List.mem_cons_self a l)
    obtain ⟨b, hb⟩ := Option.isSome_iff_exists.mp ha
    rw [List.filterMap_cons, hb]
    simp only [List.length_cons]
    rw [ih (fun x hx => h x (List.mem_cons_of_mem a hx))]

theorem normalize_and_format_length (sch : Schema) (ws : List DRecord) :
    (normalize_and_format sch ws).length = ws.length := by
  unfold normalize_and_format
  have hkl : ((ws.map (roundRecord sch)).map (fun r => r.pickup_datetime)).length =
      ws.length := by simp
  have hperm := sortIndexer_perm ((ws.map (roundRecord sch)).map (fun r => r.pickup_datetime))
  have hlen : (sortIndexer ((ws.map (roundRecord sch)).map (fun r => r.pickup_datetime))).length
      = ws.length := by
    have := hperm.length_eq
    simpa using this
  have hmem : ∀ i ∈ sortIndexer ((ws.map (roundRecord sch)).map (fun r => r.pickup_datetime)),
      ((ws.map (roundRecord sch))[i]?).isSome := by
    intro i hi
    have := hperm.mem_iff.mp hi
    simp only [List.mem_range] at this
    rw [List.getElem?_eq_getElem (by simpa using this)]
    rfl
  rw [filterMap_length_of_isSome _ _ hmem]
  exact hlen

theorem normalize_and_format_mem (sch : Schema) (ws : List DRecord) (r : DRecord)
    (h : r ∈ normalize_and_format sch ws) : ∃ w ∈ ws, r = roundRecord sch w := by
  unfold normalize_and_format at h
  rw [List.mem_filterMap] at h
  obtain ⟨i, _, hget⟩ := h
  have hr : r ∈ ws.map (roundRecord sch) := by
    have := List.getElem?_mem hget
    exact this
  rw [List.mem_map] at hr
  obtain ⟨w, hw, hrw⟩ := hr
  exact ⟨w, hw, hrw.symm⟩

theorem mapMA_ok_length {α β : Type} (f : α → Except PErr β) :
    ∀ (l : List α) (ys : List β), List.mapM' f l = .ok ys → ys.length = l.length := by
  intro l
  induction l with
  | nil =>
    intro ys h
    simp only [List.mapM'] at h
    cases h
    rfl
  | cons a l ih =>
    intro ys h
    simp only [List.mapM'] at h
    cases hfa : f a with
    | error e => rw [hfa] at h; simp [bind, Except.bind] at h
    | ok b =>
      rw [hfa] at h
      cases hml : List.mapM' f l with
      | error e => rw [hml] at h; simp [bind, Except.bind] at h
      | ok bs =>
        rw [hml] at h
        simp only [bind, Except.bind, pure, Except.pure] at h
        cases h
        simp [ih bs hml]

theorem mapM_ok_length {α β : Type} (f : α → Except PErr β) (l : List α) (ys : List β)
    (h : l.mapM f = .ok ys) : ys.length = l.length := by
  rw [← List.mapM'_eq_mapM] at h
  exact mapMA_ok_length f l ys h

theorem mapMA_ok_mem {α β : Type} (f : α → Except PErr β) :
    ∀ (l : List α) (ys : List β), List.mapM' f l = .ok ys →
      ∀ y ∈ ys, ∃ x ∈ l, f x = .ok y := by
  intro l
  induction l with
  | nil =>
    intro ys h
    simp only [List.mapM'] at h
    cases h
    intro y hy
    simp at hy
  | cons a l ih =>
    intro ys h
    simp only [List.mapM'] at h
    cases hfa : f a with
    | error e => rw [hfa] at h; simp [bind, Except.bind] at h
    | ok b =>
      rw [hfa] at h
      cases hml : List.mapM' f l with
      | error e => rw [hml] at h; simp [bind, Except.bind] at h
      | ok bs =>
        rw [hml] at h
        simp only [bind, Except.bind, pure, Except.pure] at h
        cases h
        intro y hy
        rcases List.mem_cons.mp hy with hy | hy
        · exact ⟨a, List.mem_cons_self a l, by rw [hfa, hy]⟩
        · obtain ⟨x, hx, hfx⟩ := ih bs hml y hy
          exact ⟨x, List.mem_cons_of_mem a hx, hfx⟩

theorem mapM_ok_mem {α β : Type} (f : α → Except PErr β) (l : List α) (ys : List β)
    (h : l.mapM f = .ok ys) : ∀ y ∈ ys, ∃ x ∈ l, f x = .ok y := by
  rw [← List.mapM'_eq_mapM] at h
  exact mapMA_ok_mem f l ys h

theorem mapMA_ok_of_forall {α β : Type} (f : α → Except PErr β) :
    ∀ (l : List α), (∀ x ∈ l, ∃ y, f x = .ok y) → ∃ ys, List.mapM' f l = .ok ys := by
  intro l
  induction l with
  | nil =>
    intro _
    exact ⟨[], rfl⟩
  | cons a l ih =>
    intro h
    obtain ⟨b, hb⟩ := h a (List.mem_cons_self a l)
    obtain ⟨bs, hbs⟩ := ih (fun x hx => h x (List.mem_cons_of_mem a hx))
    refine ⟨b :: bs, ?_⟩
    simp only [List.mapM']
    rw [hb, hbs]
    rfl

theorem mapM_ok_of_forall {α β : Type} (f : α → Except PErr β) (l : List α)
    (h : ∀ x ∈ l, ∃ y, f x = .ok y) : ∃ ys, l.mapM f = .ok ys := by
  rw [← List.mapM'_eq_mapM]
  exact mapMA_ok_of_forall f l h

theorem mapMA_error_of_mem {α β : Type} (f : α → Except PErr β)
    (herr : ∀ x e, f x = .error e → e = PErr.unparseableTimestamp) :
    ∀ (l : List α) (x : α), x ∈ l → (∃ e, f x = .error e) →
      List.mapM' f l = .error PErr.unparseableTimestamp := by
  intro l
  induction l with
  | nil =>
    intro x hx
    simp at hx
  | cons a l ih =>
    intro x hx hex
    simp only [List.mapM']
    cases hfa : f a with
    | error e =>
      have := herr a e hfa
      subst this
      rfl
    | ok b =>
      rcases List.mem_cons.mp hx with rfl | hx
      · obtain ⟨e, he⟩ := hex
        rw [he] at hfa
        cases hfa
      · rw [ih x hx hex]
        rfl

theorem mapM_error_of_mem {α β : Type} (f : α → Except PErr β)
    (herr : ∀ x e, f x = .error e → e = PErr.unparseableTimestamp)
    (l : List α) (x : α) (hx : x ∈ l) (hex : ∃ e, f x = .error e) :
    l.mapM f = .error PErr.unparseableTimestamp := by
  rw [← List.mapM'_eq_mapM]
  exact mapMA_error_of_mem f herr l x hx hex

theorem dedupGo_length :
    ∀ (seen : List (Option TS × Option TS × Option ℚ × Option ℚ)) (l : List RawRecord),
      (dedupGo seen l).1.length + (dedupGo seen l).2.length = l.length := by
  intro seen l
  induction l generalizing seen with
  | nil => rfl
  | cons r rs ih =>
    unfold dedupGo
    split
    · simp only [List.length_cons]
      have := ih seen
      omega
    · simp only [List.length_cons]
      have := ih (dupKey r :: seen)
      omega

theorem dedupGo_kept_subset :
    ∀ (seen : List (Option TS × Option TS × Option ℚ × Option ℚ)) (l : List RawRecord)
      (r : RawRecord), r ∈ (dedupGo seen l).1 → r ∈ l := by
  intro seen l
  induction l generalizing seen with
  | nil =>
    intro r h
    simp [dedupGo] at h
  | cons a rs ih =>
    intro r h
    unfold dedupGo at h
    split at h
    · exact List.mem_cons_of_mem a (ih seen r h)
    · rcases List.mem_cons.mp h with rfl | h
      · exact List.mem_cons_self r rs
      · exact List.mem_cons_of_mem a (ih _ r h)

theorem dedupGo_mem_excluded :
    ∀ (l : List RawRecord) (seen : List (Option TS × Option TS × Option ℚ × Option ℚ))
      (m : ℕ), m < l.length →
      (dupKey (l.getD m default) ∈ seen ∨
        ∃ k, k < m ∧ dupKey (l.getD k default) = dupKey (l.getD m default)) →
      l.getD m default ∈ (dedupGo seen l).2 := by
  intro l
  induction l with
  | nil =>
    intro seen m hm
    simp at hm
  | cons r rs ih =>
    intro seen m hm hcond
    unfold dedupGo
    cases m with
    | zero =>
      simp only [List.getD_cons_zero] at hcond ⊢
      rcases hcond with hseen | ⟨k, hk, _⟩
      · rw [if_pos hseen]
        exact List.mem_cons_self r _
      · omega
    | succ k =>
      simp only [List.getD_cons_succ] at hcond ⊢
      have hklen : k < rs.length := by
        simp only [List.length_cons] at hm
        omega
      split
      · -- dupKey r ∈ seen: excluded list is r :: (dedupGo seen rs).2
        have hnext : dupKey (rs.getD k default) ∈ seen ∨
            ∃ j, j < k ∧ dupKey (rs.getD j default) = dupKey (rs.getD k default) := by
          rcases hcond with hseen | ⟨j, hj, hkey⟩
          · exact Or.inl hseen
          · cases j with
            | zero =>
              simp only [List.getD_cons_zero] at hkey
              left
              rw [← hkey]
              assumption
            | succ j2 =>
              right
              simp only [List.getD_cons_succ] at hkey
              exact ⟨j2, by omega, hkey⟩
        exact List.mem_cons_of_mem r (ih seen k hklen hnext)
      · -- dupKey r ∉ seen: recurse with dupKey r :: seen
        have hnext : dupKey (rs.getD k default) ∈ dupKey r :: seen ∨
            ∃ j, j < k ∧ dupKey (rs.getD j default) = dupKey (rs.getD k default) := by
          rcases hcond with hseen | ⟨j, hj, hkey⟩
          · exact Or.inl (List.mem_cons_of_mem _ hseen)
          · cases j with
            | zero =>
              simp only [List.getD_cons_zero] at hkey
              left
              rw [← hkey]
              exact List.mem_cons_self _ _
            | succ j2 =>
              right
              simp only [List.getD_cons_succ] at hkey
              exact ⟨j2, by omega, hkey⟩
        exact ih (dupKey r :: seen) k hklen hnext

theorem dedupGo_mem_kept :
    ∀ (l : List RawRecord) (seen : List (Option TS × Option TS × Option ℚ × Option ℚ))
      (m : ℕ), m < l.length →
      dupKey (l.getD m default) ∉ seen →
      (∀ k, k < m → dupKey (l.getD k default) ≠ dupKey (l.getD m default)) →
      l.getD m default ∈ (dedupGo seen l).1 := by
  intro l
  induction l with
  | nil =>
    intro seen m hm
    simp at hm
  | cons r rs ih =>
    intro seen m hm hseen hfirst
    unfold dedupGo
    cases m with
    | zero =>
      simp only [List.getD_cons_zero] at hseen ⊢
      rw [if_neg hseen]
      exact List.mem_cons_self r _
    | succ k =>
      simp only [List.getD_cons_succ] at hseen hfirst ⊢
      have hklen : k < rs.length := by
        simp only [List.length_cons] at hm
        omega
      have hshift : ∀ j, j < k → dupKey (rs.getD j default) ≠ dupKey (rs.getD k default) := by
        intro j hj
        have := hfirst (j + 1) (by omega)
        simpa using this
      split
      · exact ih seen k hklen hseen hshift
      · have hne : dupKey (rs.getD k default) ∉ dupKey r :: seen := by
          intro hmem
          rcases List.mem_cons.mp hmem with heq | hmem2
          · exact hfirst 0 (by omega) (by simpa using heq.symm)
          · exact hseen hmem2
        exact List.mem_cons_of_mem r (ih (dupKey r :: seen) k hklen hne hshift)

theorem dedupGo_kept_char :
    ∀ (l : List RawRecord) (seen : List (Option TS × Option TS × Option ℚ × Option ℚ))
      (r : RawRecord), r ∈ (dedupGo seen l).1 →
      dupKey r ∉ seen ∧ ∃ m, m < l.length ∧ l.getD m default = r ∧
        ∀ k, k < m → dupKey (l.getD k default) ≠ dupKey r := by
  intro l
  induction l with
  | nil =>
    intro seen r h
    simp [dedupGo] at h
  | cons a rs ih =>
    intro seen r h
    unfold dedupGo at h
    split at h
    · -- dupKey a ∈ seen
      obtain ⟨hnot, m, hm, hget, hfirst⟩ := ih seen r h
      refine ⟨hnot, m + 1, by simp only [List.length_cons]; omega, by simpa using hget, ?_⟩
      intro k hk
      cases k with
      | zero =>
        simp only [List.getD_cons_zero]
        intro hkey
        apply hnot
        rw [← hkey]
        assumption
      | succ k2 =>
        simp only [List.getD_cons_succ]
        exact hfirst k2 (by omega)
    · -- dupKey a ∉ seen
      rcases List.mem_cons.mp h with rfl | h2
      · refine ⟨by assumption, 0, by simp, by simp, by omega⟩
      · obtain ⟨hnot, m, hm, hget, hfirst⟩ := ih (dupKey a :: seen) r h2
        have hnota : dupKey r ≠ dupKey a := by
          intro hkey
          exact hnot (by rw [hkey]; exact List.mem_cons_self _ _)
        refine ⟨fun hmem => hnot (List.mem_cons_of_mem _ hmem),
          m + 1, by simp only [List.length_cons]; omega, by simpa using hget, ?_⟩
        intro k hk
        cases k with
        | zero =>
          simp only [List.getD_cons_zero]
          exact fun hkey => hnota hkey.symm
        | succ k2 =>
          simp only [List.getD_cons_succ]
          exact hfirst k2 (by omega)

theorem process_all_ok_elim (sch : Schema) (l : List RawRecord) (out : PipelineOutput)
    (h : process_all sch l = .ok out) :
    ∃ k4 e4,
      handle_outliers_and_invalid_records sch
        (remove_duplicates (handle_missing_values sch l).1).1 = .ok (k4, e4) ∧
      out.records = normalize_and_format sch (create_derived_features sch k4) ∧
      out.excluded_records = (handle_missing_values sch l).2.map ExRec.raw ++
        (remove_duplicates (handle_missing_values sch l).1).2.map ExRec.raw ++
        e4.map ExRec.parsed ∧
      out.log = save_excluded_records out.excluded_records ∧
      out.stats = { original_count := l.length
                    missing_values_removed := l.length - (handle_missing_values sch l).1.length
                    duplicates_removed := (handle_missing_values sch l).1.length -
                      (remove_duplicates (handle_missing_values sch l).1).1.length
                    outliers_removed := (remove_duplicates (handle_missing_values sch l).1).1.length -
                      k4.length
                    final_count := (normalize_and_format sch (create_derived_features sch k4)).length } ∧
      generate_cleaning_report out.stats = .ok out.report := by
  unfold process_all at h
  dsimp only at h
  cases hs4 : handle_outliers_and_invalid_records sch
      (remove_duplicates (handle_missing_values sch l).1).1 with
  | error e =>
    rw [hs4] at h
    simp [bind, Except.bind] at h
  | ok s4 =>
    rw [hs4] at h
    simp only [bind, Except.bind] at h
    cases hrep : generate_cleaning_report
        { original_count := l.length
          missing_values_removed := l.length - (handle_missing_values sch l).1.length
          duplicates_removed := (handle_missing_values sch l).1.length -
            (remove_duplicates (handle_missing_values sch l).1).1.length
          outliers_removed := (remove_duplicates (handle_missing_values sch l).1).1.length -
            s4.1.length
          final_count := (normalize_and_format sch (create_derived_features sch s4.1)).length } with
    | error e =>
      rw [hrep] at h
      simp at h
    | ok rep =>
      rw [hrep] at h
      simp only [pure, Except.pure] at h
      cases h
      exact ⟨s4.1, s4.2, rfl, rfl, rfl, rfl, rfl, hrep⟩

/-- A raw timestamp cell that pd.to_datetime will not raise on. -/
def tsOK : Option TS → Bool
  | some (.invalid _) => false
  | _ => true

theorem handle_missing_values_kept_length (sch : Schema) (l : List RawRecord) :
    (handle_missing_values sch l).1.length ≤ l.length := by
  unfold handle_missing_values
  simp only [List.length_map]
  exact List.length_filter_le _ l

theorem handle_missing_values_kept_elim (sch : Schema) (l : List RawRecord)
    (r2 : RawRecord) (h : r2 ∈ (handle_missing_values sch l).1) :
    ∃ r ∈ l, r2 = fillPassenger sch r ∧ hasMissingCritical r = false := by
  unfold handle_missing_values at h
  rw [List.mem_map] at h
  obtain ⟨r, hr, hfill⟩ := h
  rw [List.mem_filter] at hr
  exact ⟨r, hr.1, hfill.symm, by simpa using hr.2⟩

theorem fillPassenger_fields (sch : Schema) (r : RawRecord) :
    (fillPassenger sch r).rid = r.rid ∧
    (fillPassenger sch r).pickup_datetime = r.pickup_datetime ∧
    (fillPassenger sch r).dropoff_datetime = r.dropoff_datetime ∧
    (fillPassenger sch r).pickup_longitude = r.pickup_longitude ∧
    (fillPassenger sch r).pickup_latitude = r.pickup_latitude ∧
    (fillPassenger sch r).dropoff_longitude = r.dropoff_longitude ∧
    (fillPassenger sch r).dropoff_latitude = r.dropoff_latitude ∧
    (fillPassenger sch r).trip_distance = r.trip_distance ∧
    (fillPassenger sch r).fare_amount = r.fare_amount ∧
    (fillPassenger sch r).tip_amount = r.tip_amount := by
  unfold fillPassenger
  split <;> exact ⟨rfl, rfl, rfl, rfl, rfl, rfl, rfl, rfl, rfl, rfl⟩

theorem hasMissingCritical_false_elim (r : RawRecord)
    (h : hasMissingCritical r = false) :
    r.pickup_datetime.isSome ∧ r.dropoff_datetime.isSome ∧
    r.pickup_longitude.isSome ∧ r.pickup_latitude.isSome ∧
    r.dropoff_longitude.isSome ∧ r.dropoff_latitude.isSome := by
  unfold hasMissingCritical at h
  simp only [Bool.or_eq_false_iff, Option.isNone_eq_false_iff] at h
  obtain ⟨⟨⟨⟨⟨h1, h2⟩, h3⟩, h4⟩, h5⟩, h6⟩ := h
  exact ⟨h1, h2, h3, h4, h5, h6⟩

theorem parseRecord_error_elim (r : RawRecord) (e : PErr)
    (h : parseRecord r = .error e) : e = PErr.unparseableTimestamp := by
  unfold parseRecord at h
  cases hp : r.pickup_datetime with
  | none =>
    rw [hp] at h
    simp only [parseTS, bind, Except.bind] at h
    cases hd : r.dropoff_datetime with
    | none => rw [hd] at h; simp [parseTS, pure, Except.pure] at h
    | some td =>
      cases td with
      | valid t => rw [hd] at h; simp [parseTS, pure, Except.pure] at h
      | invalid tag =>
        rw [hd] at h
        simp only [parseTS] at h
        cases h
        rfl
  | some tp =>
    cases tp with
    | valid t =>
      rw [hp] at h
      simp only [parseTS, bind, Except.bind] at h
      cases hd : r.dropoff_datetime with
      | none => rw [hd] at h; simp [parseTS, pure, Except.pure] at h
      | some td =>
        cases td with
        | valid t2 => rw [hd] at h; simp [parseTS, pure, Except.pure] at h
        | invalid tag =>
          rw [hd] at h
          simp only [parseTS] at h
          cases h
          rfl
    | invalid tag =>
      rw [hp] at h
      simp only [parseTS, bind, Except.bind] at h
      cases h
      rfl

theorem parseRecord_ok_of_tsOK (r : RawRecord)
    (h1 : tsOK r.pickup_datetime = true) (h2 : tsOK r.dropoff_datetime = true) :
    ∃ v, parseRecord r = .ok v := by
  cases he : parseRecord r with
  | ok v => exact ⟨v, rfl⟩
  | error e =>
    exfalso
    unfold parseRecord at he
    cases hp : r.pickup_datetime with
    | none =>
      rw [hp] at he
      cases hd : r.dropoff_datetime with
      | none => rw [hd] at he; simp [parseTS, bind, Except.bind, pure, Except.pure] at he
      | some td =>
        cases td with
        | valid t => rw [hd] at he; simp [parseTS, bind, Except.bind, pure, Except.pure] at he
        | invalid tag => rw [hd] at h2; simp [tsOK] at h2
    | some tp =>
      cases tp with
      | valid t =>
        rw [hp] at he
        cases hd : r.dropoff_datetime with
        | none => rw [hd] at he; simp [parseTS, bind, Except.bind, pure, Except.pure] at he
        | some td =>
          cases td with
          | valid t2 => rw [hd] at he; simp [parseTS, bind, Except.bind, pure, Except.pure] at he
          | invalid tag => rw [hd] at h2; simp [tsOK] at h2
      | invalid tag => rw [hp] at h1; simp [tsOK] at h1

theorem parseRecord_ok_elim (r : RawRecord) (v : VRecord)
    (h : parseRecord r = .ok v) :
    v.rid = r.rid ∧
    v.pickup_longitude = r.pickup_longitude ∧
    v.pickup_latitude = r.pickup_latitude ∧
    v.dropoff_longitude = r.dropoff_longitude ∧
    v.dropoff_latitude = r.dropoff_latitude ∧
    v.passenger_count = r.passenger_count ∧
    v.trip_distance = r.trip_distance ∧
    v.fare_amount = r.fare_amount ∧
    v.tip_amount = r.tip_amount ∧
    parseTS r.pickup_datetime = .ok v.pickup_datetime ∧
    parseTS r.dropoff_datetime = .ok v.dropoff_datetime ∧
    v.trip_duration_seconds =
      (match v.pickup_datetime, v.dropoff_datetime with
       | some a, some b => some (((b - a : ℤ) : ℚ))
       | _, _ => none) := by
  unfold parseRecord at h
  cases hp : parseTS r.pickup_datetime with
  | error e => rw [hp] at h; simp [bind, Except.bind] at h
  | ok p =>
    rw [hp] at h
    cases hd : parseTS r.dropoff_datetime with
    | error e => rw [hd] at h; simp [bind, Except.bind] at h
    | ok d =>
      rw [hd] at h
      simp only [bind, Except.bind, pure, Except.pure] at h
      cases h
      exact ⟨rfl, rfl, rfl, rfl, rfl, rfl, rfl, rfl, rfl, rfl, rfl, rfl⟩

theorem parseTS_ok_isSome (x : Option TS) (y : Option ℤ)
    (h : parseTS x = .ok y) (hx : x.isSome) : y.isSome := by
  cases x with
  | none => simp at hx
  | some t =>
    cases t with
    | valid u =>
      simp only [parseTS] at h
      cases h
      rfl
    | invalid tag => simp [parseTS] at h

theorem stage4_ok_elim (sch : Schema) (l : List RawRecord)
    (k4 e4 : List VRecord)
    (h : handle_outliers_and_invalid_records sch l = .ok (k4, e4)) :
    ∃ parsed : List VRecord, l.mapM parseRecord = .ok parsed ∧
      k4 = parsed.filter (fun v => !invalidRecord sch v) ∧
      e4 = parsed.filter (fun v => invalidRecord sch v) ∧
      parsed.length = l.length := by
  unfold handle_outliers_and_invalid_records at h
  cases hm : l.mapM parseRecord with
  | error e => rw [hm] at h; simp [bind, Except.bind] at h
  | ok parsed =>
    rw [hm] at h
    simp only [bind, Except.bind, pure, Except.pure] at h
    cases h
    exact ⟨parsed, rfl, rfl, rfl, mapM_ok_length _ _ _ hm⟩

theorem mapMA_error_elim {α β : Type} (f : α → Except PErr β)
    (herr : ∀ x e, f x = .error e → e = PErr.unparseableTimestamp) :
    ∀ (l : List α) (e : PErr), List.mapM' f l = .error e →
      e = PErr.unparseableTimestamp := by
  intro l
  induction l with
  | nil =>
    intro e h
    simp [List.mapM', pure, Except.pure] at h
  | cons a l ih =>
    intro e h
    simp only [List.mapM'] at h
    cases hfa : f a with
    | error e2 =>
      rw [hfa] at h
      simp only [bind, Except.bind] at h
      cases h
      exact herr a e hfa
    | ok b =>
      rw [hfa] at h
      cases hml : List.mapM' f l with
      | error e2 =>
        rw [hml] at h
        simp only [bind, Except.bind] at h
        cases h
        exact ih e hml
      | ok bs =>
        rw [hml] at h
        simp [bind, Except.bind, pure, Except.pure] at h

theorem stage4_error_elim (sch : Schema) (l : List RawRecord) (e : PErr)
    (h : handle_outliers_and_invalid_records sch l = .error e) :
    e = PErr.unparseableTimestamp := by
  unfold handle_outliers_and_invalid_records at h
  cases hm : l.mapM parseRecord with
  | error e2 =>
    rw [hm] at h
    simp only [bind, Except.bind] at h
    cases h
    rw [← List.mapM'_eq_mapM] at hm
    exact mapMA_error_elim parseRecord parseRecord_error_elim l e hm
  | ok parsed =>
    rw [hm] at h
    simp [bind, Except.bind, pure, Except.pure] at h

/-- C1: after the full pipeline runs on any input, the accumulated
statistics satisfy original_count = final_count + missing_values_removed +
duplicates_removed + outliers_removed, with original_count set by the
Loader, each removal counter set by its stage as count-before minus
count-after, and final_count set by the Normalizer. -/
theorem C1_partition_completeness (sch : Schema) (l : List RawRecord)
    (out : PipelineOutput) (h : process_all sch l = .ok out) :
    out.stats.original_count = out.stats.final_count +
      out.stats.missing_values_removed + out.stats.duplicates_removed +
      out.stats.outliers_removed := by
  obtain ⟨k4, e4, hs4, hrec, hexc, hlog, hstats, hrep⟩ := process_all_ok_elim sch l out h
  have h2 : (handle_missing_values sch l).1.length ≤ l.length :=
    handle_missing_values_kept_length sch l
  have h3sum := dedupGo_length [] (handle_missing_values sch l).1
  have h3 : (remove_duplicates (handle_missing_values sch l).1).1.length ≤
      (handle_missing_values sch l).1.length := by
    unfold remove_duplicates
    omega
  obtain ⟨parsed, hm, hk4, he4, hplen⟩ := stage4_ok_elim sch _ k4 e4 hs4
  have h4 : k4.length ≤ (remove_duplicates (handle_missing_values sch l).1).1.length := by
    rw [hk4]
    calc (parsed.filter (fun v => !invalidRecord sch v)).length
        ≤ parsed.length := List.length_filter_le _ _
      _ = _ := hplen
  have hfin : (normalize_and_format sch (create_derived_features sch k4)).length =
      k4.length := by
    rw [normalize_and_format_length]
    simp [create_derived_features]
  rw [hstats]
  dsimp only
  omega

/-- C9: the emitted exclusion log always carries the count of all excluded
records across all stages, and as its records array exactly the first 1000
excluded records in exclusion order (stage 2, then stage 3, then stage 4);
the count field is not affected by the 1000-entry cap. -/
theorem C9_exclusion_log (sch : Schema) (l : List RawRecord)
    (out : PipelineOutput) (h : process_all sch l = .ok out) :
    out.log.count = out.excluded_records.length ∧
    out.log.records = out.excluded_records.take 1000 ∧
    out.log.records.length ≤ 1000 ∧
    ∃ k4 e4,
      handle_outliers_and_invalid_records sch
        (remove_duplicates (handle_missing_values sch l).1).1 = .ok (k4, e4) ∧
      out.excluded_records = (handle_missing_values sch l).2.map ExRec.raw ++
        (remove_duplicates (handle_missing_values sch l).1).2.map ExRec.raw ++
        e4.map ExRec.parsed := by
  obtain ⟨k4, e4, hs4, hrec, hexc, hlog, hstats, hrep⟩ := process_all_ok_elim sch l out h
  refine ⟨?_, ?_, ?_, k4, e4, hs4, hexc⟩
  · rw [hlog]; rfl
  · rw [hlog]; rfl
  · rw [hlog]
    exact List.length_take_le 1000 out.excluded_records

/-- C10: the ReportGenerator requires original_count to be positive: on an
empty input (original_count = 0) the retention-rate division raises
ZeroDivisionError instead of producing a report, and for every input with
at least one row that division is well-defined, so the pipeline never
fails with ZeroDivisionError. -/
theorem C10_report_needs_rows :
    (∀ sch : Schema, process_all sch [] = .error PErr.zeroDivisionError) ∧
    (∀ s : Stats, s.original_count = 0 →
      generate_cleaning_report s = .error PErr.zeroDivisionError) ∧
    (∀ s : Stats, 0 < s.original_count →
      generate_cleaning_report s = .ok
        { statistics := s
          retention_rate := (s.final_count : ℚ) / (s.original_count : ℚ) * 100 }) ∧
    (∀ (sch : Schema) (l : List RawRecord), 0 < l.length →
      process_all sch l ≠ .error PErr.zeroDivisionError) := by
  refine ⟨?_, ?_, ?_, ?_⟩
  · intro sch
    rfl
  · intro s h
    unfold generate_cleaning_report
    rw [if_pos h]
  · intro s h
    unfold generate_cleaning_report
    rw [if_neg (by omega)]
  · intro sch l hl hc
    unfold process_all at hc
    dsimp only at hc
    cases hs4 : handle_outliers_and_invalid_records sch
        (remove_duplicates (handle_missing_values sch l).1).1 with
    | error e =>
      rw [hs4] at hc
      simp only [bind, Except.bind] at hc
      cases hc
      have := stage4_error_elim sch _ _ hs4
      simp at this
    | ok s4 =>
      rw [hs4] at hc
      simp only [bind, Except.bind] at hc
      cases hrep : generate_cleaning_report
          { original_count := l.length
            missing_values_removed := l.length - (handle_missing_values sch l).1.length
            duplicates_removed := (handle_missing_values sch l).1.length -
              (remove_duplicates (handle_missing_values sch l).1).1.length
            outliers_removed := (remove_duplicates (handle_missing_values sch l).1).1.length -
              s4.1.length
            final_count := (normalize_and_format sch (create_derived_features sch s4.1)).length } with
      | error e2 =>
        unfold generate_cleaning_report at hrep
        rw [if_neg (by dsimp only; omega)] at hrep
        cases hrep
      | ok rep =>
        rw [hrep] at hc
        simp [pure, Except.pure] at hc

/-- Witness schema: none of the optional columns present. -/
def wSch : Schema := ⟨false, false, false, false⟩

/-- Witness schema with every optional column present. -/
def wSchAll : Schema := ⟨true, true, true, true⟩

/-- A well-formed raw row. -/
def wRaw1 : RawRecord :=
  { rid := 0
    pickup_datetime := some (TS.valid 100)
    dropoff_datetime := some (TS.valid 160)
    pickup_longitude := some (-74)
    pickup_latitude := some 41
    dropoff_longitude := some (-74)
    dropoff_latitude := some 41
    passenger_count := none
    trip_distance := none
    fare_amount := none
    tip_amount := none }

/-- A raw row missing a critical field. -/
def wRawMiss : RawRecord := { wRaw1 with rid := 1, dropoff_latitude := none }

/-- Output of a successful one-row run. -/
def wOut1 : PipelineOutput := (process_all wSch [wRaw1]).toOption.getD default

/-- Output of a successful run with one excluded row. -/
def wOut2 : PipelineOutput := (process_all wSch [wRaw1, wRawMiss]).toOption.getD default

theorem C1_partition_completeness_witness :
    wOut1.stats.original_count = wOut1.stats.final_count +
      wOut1.stats.missing_values_removed + wOut1.stats.duplicates_removed +
      wOut1.stats.outliers_removed :=
  C1_partition_completeness wSch [wRaw1] wOut1 rfl

theorem C9_exclusion_log_witness :
    wOut2.log.count = wOut2.excluded_records.length ∧
    wOut2.log.records = wOut2.excluded_records.take 1000 ∧
    wOut2.log.records.length ≤ 1000 ∧
    ∃ k4 e4,
      handle_outliers_and_invalid_records wSch
        (remove_duplicates (handle_missing_values wSch [wRaw1, wRawMiss]).1).1 = .ok (k4, e4) ∧
      wOut2.excluded_records =
        (handle_missing_values wSch [wRaw1, wRawMiss]).2.map ExRec.raw ++
        (remove_duplicates (handle_missing_values wSch [wRaw1, wRawMiss]).1).2.map ExRec.raw ++
        e4.map ExRec.parsed :=
  C9_exclusion_log wSch [wRaw1, wRawMiss] wOut2 rfl

theorem C10_report_needs_rows_witness :
    generate_cleaning_report ⟨0, 0, 0, 0, 0⟩ = .error PErr.zeroDivisionError ∧
    generate_cleaning_report ⟨2, 0, 0, 1, 1⟩ = .ok
      { statistics := ⟨2, 0, 0, 1, 1⟩
        retention_rate := ((1 : ℕ) : ℚ) / ((2 : ℕ) : ℚ) * 100 } ∧
    process_all wSch [wRaw1] ≠ .error PErr.zeroDivisionError :=
  ⟨C10_report_needs_rows.2.1 ⟨0, 0, 0, 0, 0⟩ rfl,
   C10_report_needs_rows.2.2.1 ⟨2, 0, 0, 1, 1⟩ (by decide),
   C10_report_needs_rows.2.2.2 wSch [wRaw1] (by norm_num)⟩

theorem stage4_survivor_elim (sch : Schema) (l : List RawRecord)
    (k4 e4 : List VRecord)
    (h4 : handle_outliers_and_invalid_records sch
      (remove_duplicates (handle_missing_values sch l).1).1 = .ok (k4, e4))
    (v : VRecord) (hv : v ∈ k4) :
    invalidRecord sch v = false ∧
    ∃ r2 ∈ (remove_duplicates (handle_missing_values sch l).1).1,
      parseRecord r2 = .ok v := by
  obtain ⟨parsed, hm, hk4, he4, hplen⟩ := stage4_ok_elim sch _ k4 e4 h4
  rw [hk4] at hv
  rw [List.mem_filter] at hv
  obtain ⟨hvp, hvi⟩ := hv
  refine ⟨by simpa using hvi, ?_⟩
  exact mapM_ok_mem parseRecord _ parsed hm v hvp

theorem survivor_core (sch : Schema) (l : List RawRecord)
    (k4 e4 : List VRecord)
    (h4 : handle_outliers_and_invalid_records sch
      (remove_duplicates (handle_missing_values sch l).1).1 = .ok (k4, e4))
    (v : VRecord) (hv : v ∈ k4) :
    (∃ a, v.pickup_latitude = some a ∧ 40.5 ≤ a ∧ a ≤ 41 ∧ a ≠ 0) ∧
    (∃ b, v.pickup_longitude = some b ∧ -74.3 ≤ b ∧ b ≤ -73.7 ∧ b ≠ 0) ∧
    (∃ c, v.dropoff_latitude = some c ∧ 40.5 ≤ c ∧ c ≤ 41 ∧ c ≠ 0) ∧
    (∃ d, v.dropoff_longitude = some d ∧ -74.3 ≤ d ∧ d ≤ -73.7 ∧ d ≠ 0) ∧
    (∃ p dp du, v.pickup_datetime = some p ∧ v.dropoff_datetime = some dp ∧
      v.trip_duration_seconds = some du ∧ du = ((dp - p : ℤ) : ℚ) ∧
      0 < du ∧ du ≤ 86400) := by
  obtain ⟨hinv, r2, hr2mem, hr2parse⟩ := stage4_survivor_elim sch l k4 e4 h4 v hv
  have hr2s2 : r2 ∈ (handle_missing_values sch l).1 :=
    dedupGo_kept_subset [] _ r2 hr2mem
  obtain ⟨r, hrl, hfill, hmiss⟩ := handle_missing_values_kept_elim sch l r2 hr2s2
  obtain ⟨hpdt, hddt, hplon, hplat, hdlon, hdlat⟩ := hasMissingCritical_false_elim r hmiss
  obtain ⟨hf0, hf1, hf2, hf3, hf4, hf5, hf6, hf7, hf8, hf9⟩ := fillPassenger_fields sch r
  obtain ⟨hv0, hv1, hv2, hv3, hv4, hv5, hv6, hv7, hv8, hvp, hvd, hvdur⟩ :=
    parseRecord_ok_elim r2 v hr2parse
  have hlat1 : v.pickup_latitude.isSome := by rw [hv2, hfill, hf4]; exact hplat
  have hlon1 : v.pickup_longitude.isSome := by rw [hv1, hfill, hf3]; exact hplon
  have hlat2 : v.dropoff_latitude.isSome := by rw [hv4, hfill, hf6]; exact hdlat
  have hlon2 : v.dropoff_longitude.isSome := by rw [hv3, hfill, hf5]; exact hdlon
  obtain ⟨a, ha⟩ := Option.isSome_iff_exists.mp hlat1
  obtain ⟨b, hb⟩ := Option.isSome_iff_exists.mp hlon1
  obtain ⟨c, hc⟩ := Option.isSome_iff_exists.mp hlat2
  obtain ⟨d, hd⟩ := Option.isSome_iff_exists.mp hlon2
  have hps : v.pickup_datetime.isSome := by
    refine parseTS_ok_isSome r2.pickup_datetime v.pickup_datetime hvp ?_
    rw [hfill, hf1]
    exact hpdt
  have hds : v.dropoff_datetime.isSome := by
    refine parseTS_ok_isSome r2.dropoff_datetime v.dropoff_datetime hvd ?_
    rw [hfill, hf2]
    exact hddt
  obtain ⟨p, hp⟩ := Option.isSome_iff_exists.mp hps
  obtain ⟨dp, hdp⟩ := Option.isSome_iff_exists.mp hds
  have hdur : v.trip_duration_seconds = some (((dp - p : ℤ) : ℚ)) := by
    rw [hvdur, hp, hdp]
  unfold invalidRecord at hinv
  rw [ha, hb, hc, hd, hdur] at hinv
  simp only [oLt, oGt, oLe, oEq, Bool.or_eq_false_iff, decide_eq_false_iff_not,
    not_lt] at hinv
  obtain ⟨⟨⟨⟨⟨⟨⟨⟨⟨⟨⟨⟨⟨⟨⟨⟨q1, q2⟩, q3⟩, q4⟩, q5⟩, q6⟩, q7⟩, q8⟩, q9⟩, q10⟩,
    qa⟩, qb⟩, qc⟩, qd⟩, _⟩, _⟩, _⟩ := hinv
  rw [q40_5_eq] at q3 q7
  rw [qm74_3_eq] at q5 q9
  rw [qm73_7_eq] at q6 q10
  have hdu0 : (0 : ℚ) < ((dp - p : ℤ) : ℚ) := lt_of_not_le q1
  refine ⟨⟨a, ha, by linarith, by linarith, qa⟩,
    ⟨b, hb, by linarith, by linarith, qb⟩,
    ⟨c, hc, by linarith, by linarith, qc⟩,
    ⟨d, hd, by linarith, by linarith, qd⟩,
    ⟨p, dp, ((dp - p : ℤ) : ℚ), hp, hdp, hdur, rfl, hdu0, by linarith⟩⟩

theorem deriveRecord_toVRecord (sch : Schema) (v : VRecord) :
    (deriveRecord sch v).toVRecord = v := rfl

theorem roundRecord_coord_fields (sch : Schema) (w : DRecord) :
    (roundRecord sch w).pickup_latitude = w.pickup_latitude.map round4 ∧
    (roundRecord sch w).pickup_longitude = w.pickup_longitude.map round4 ∧
    (roundRecord sch w).dropoff_latitude = w.dropoff_latitude.map round4 ∧
    (roundRecord sch w).dropoff_longitude = w.dropoff_longitude.map round4 ∧
    (roundRecord sch w).trip_duration_seconds = w.trip_duration_seconds.map round4 ∧
    (roundRecord sch w).pickup_datetime = w.pickup_datetime ∧
    (roundRecord sch w).dropoff_datetime = w.dropoff_datetime := by
  unfold roundRecord
  exact ⟨rfl, rfl, rfl, rfl, rfl, rfl, rfl⟩

theorem round4_lat_bounds {a : ℚ} (h1 : 40.5 ≤ a) (h2 : a ≤ 41) :
    40.5 ≤ round4 a ∧ round4 a ≤ 41 ∧ round4 a ≠ 0 := by
  have e1 : ((405000 : ℤ) : ℚ) / 10000 = 40.5 := by norm_num
  have e2 : ((410000 : ℤ) : ℚ) / 10000 = 41 := by norm_num
  have l1 := le_round4 (k := 405000) (x := a) (by rw [e1]; exact h1)
  have l2 := round4_le (k := 410000) (x := a) (by rw [e2]; exact h2)
  rw [e1] at l1
  rw [e2] at l2
  refine ⟨l1, l2, ?_⟩
  intro h0
  rw [h0] at l1
  norm_num at l1

theorem round4_lon_bounds {b : ℚ} (h1 : -74.3 ≤ b) (h2 : b ≤ -73.7) :
    -74.3 ≤ round4 b ∧ round4 b ≤ -73.7 ∧ round4 b ≠ 0 := by
  have e1 : ((-743000 : ℤ) : ℚ) / 10000 = -74.3 := by norm_num
  have e2 : ((-737000 : ℤ) : ℚ) / 10000 = -73.7 := by norm_num
  have l1 := le_round4 (k := -743000) (x := b) (by rw [e1]; exact h1)
  have l2 := round4_le (k := -737000) (x := b) (by rw [e2]; exact h2)
  rw [e1] at l1
  rw [e2] at l2
  refine ⟨l1, l2, ?_⟩
  intro h0
  rw [h0] at l2
  norm_num at l2

/-- The bounding-box shape that claims C2 asserts for surviving records. -/
def inBoundingBox (v : VRecord) : Prop :=
  (∃ a, v.pickup_latitude = some a ∧ 40.5 ≤ a ∧ a ≤ 41 ∧ a ≠ 0) ∧
  (∃ b, v.pickup_longitude = some b ∧ -74.3 ≤ b ∧ b ≤ -73.7 ∧ b ≠ 0) ∧
  (∃ c, v.dropoff_latitude = some c ∧ 40.5 ≤ c ∧ c ≤ 41 ∧ c ≠ 0) ∧
  (∃ d, v.dropoff_longitude = some d ∧ -74.3 ≤ d ∧ d ≤ -73.7 ∧ d ≠ 0)

/-- The duration shape that claim C3 asserts for surviving records. -/
def durationInRange (v : VRecord) : Prop :=
  ∃ p dp du, v.pickup_datetime = some p ∧ v.dropoff_datetime = some dp ∧
    v.trip_duration_seconds = some du ∧ du = ((dp - p : ℤ) : ℚ) ∧
    0 < du ∧ du ≤ 86400

theorem final_record_elim (sch : Schema) (l : List RawRecord)
    (out : PipelineOutput) (h : process_all sch l = .ok out)
    (r : DRecord) (hr : r ∈ out.records) :
    ∃ k4 e4, handle_outliers_and_invalid_records sch
        (remove_duplicates (handle_missing_values sch l).1).1 = .ok (k4, e4) ∧
      ∃ v ∈ k4, r = roundRecord sch (deriveRecord sch v) := by
  obtain ⟨k4, e4, hs4, hrec, hexc, hlog, hstats, hrep⟩ := process_all_ok_elim sch l out h
  rw [hrec] at hr
  obtain ⟨w, hw, hrw⟩ := normalize_and_format_mem sch _ r hr
  unfold create_derived_features at hw
  rw [List.mem_map] at hw
  obtain ⟨v, hv, hvw⟩ := hw
  exact ⟨k4, e4, hs4, v, hv, by rw [hrw, hvw]⟩

/-- C2: every record that survives the ValidityFilter — and hence every
record in the final cleaned dataset — has pickup and dropoff latitude in
[40.5, 41.0], pickup and dropoff longitude in [-74.3, -73.7], and none of
the four coordinates exactly 0. -/
theorem C2_bounding_box (sch : Schema) (l : List RawRecord) :
    (∀ k4 e4, handle_outliers_and_invalid_records sch
        (remove_duplicates (handle_missing_values sch l).1).1 = .ok (k4, e4) →
      ∀ v ∈ k4, inBoundingBox v) ∧
    (∀ out, process_all sch l = .ok out →
      ∀ r ∈ out.records, inBoundingBox r.toVRecord) := by
  constructor
  · intro k4 e4 h4 v hv
    obtain ⟨c1, c2, c3, c4, _⟩ := survivor_core sch l k4 e4 h4 v hv
    exact ⟨c1, c2, c3, c4⟩
  · intro out hout r hr
    obtain ⟨k4, e4, hs4, v, hv, hrv⟩ := final_record_elim sch l out hout r hr
    obtain ⟨⟨a, ha, ha1, ha2, _⟩, ⟨b, hb, hb1, hb2, _⟩,
      ⟨c, hc, hc1, hc2, _⟩, ⟨d, hd, hd1, hd2, _⟩, _⟩ :=
      survivor_core sch l k4 e4 hs4 v hv
    obtain ⟨e1, e2, e3, e4x, _, _, _⟩ := roundRecord_coord_fields sch (deriveRecord sch v)
    have g1 : (deriveRecord sch v).pickup_latitude = v.pickup_latitude := rfl
    have g2 : (deriveRecord sch v).pickup_longitude = v.pickup_longitude := rfl
    have g3 : (deriveRecord sch v).dropoff_latitude = v.dropoff_latitude := rfl
    have g4 : (deriveRecord sch v).dropoff_longitude = v.dropoff_longitude := rfl
    obtain ⟨p1, p2, p3⟩ := round4_lat_bounds ha1 ha2
    obtain ⟨q1, q2, q3⟩ := round4_lon_bounds hb1 hb2
    obtain ⟨p4, p5, p6⟩ := round4_lat_bounds hc1 hc2
    obtain ⟨q4, q5, q6⟩ := round4_lon_bounds hd1 hd2
    refine ⟨⟨round4 a, ?_, p1, p2, p3⟩, ⟨round4 b, ?_, q1, q2, q3⟩,
      ⟨round4 c, ?_, p4, p5, p6⟩, ⟨round4 d, ?_, q4, q5, q6⟩⟩
    · rw [hrv]; show (roundRecord sch (deriveRecord sch v)).pickup_latitude = _
      rw [e1, g1, ha]; rfl
    · rw [hrv]; show (roundRecord sch (deriveRecord sch v)).pickup_longitude = _
      rw [e2, g2, hb]; rfl
    · rw [hrv]; show (roundRecord sch (deriveRecord sch v)).dropoff_latitude = _
      rw [e3, g3, hc]; rfl
    · rw [hrv]; show (roundRecord sch (deriveRecord sch v)).dropoff_longitude = _
      rw [e4x, g4, hd]; rfl

/-- C3: every record that survives the ValidityFilter — and hence every
record in the final cleaned dataset — has trip_duration_seconds, computed
as the dropoff timestamp minus the pickup timestamp in seconds, strictly
greater than 0 and at most 86400. -/
theorem C3_duration_invariant (sch : Schema) (l : List RawRecord) :
    (∀ k4 e4, handle_outliers_and_invalid_records sch
        (remove_duplicates (handle_missing_values sch l).1).1 = .ok (k4, e4) →
      ∀ v ∈ k4, durationInRange v) ∧
    (∀ out, process_all sch l = .ok out →
      ∀ r ∈ out.records, durationInRange r.toVRecord) := by
  constructor
  · intro k4 e4 h4 v hv
    obtain ⟨_, _, _, _, c5⟩ := survivor_core sch l k4 e4 h4 v hv
    exact c5
  · intro out hout r hr
    obtain ⟨k4, e4, hs4, v, hv, hrv⟩ := final_record_elim sch l out hout r hr
    obtain ⟨_, _, _, _, p, dp, du, hp, hdp, hdur, hdeq, hdu1, hdu2⟩ :=
      survivor_core sch l k4 e4 hs4 v hv
    obtain ⟨_, _, _, _, e5, e6, e7⟩ := roundRecord_coord_fields sch (deriveRecord sch v)
    have g5 : (deriveRecord sch v).trip_duration_seconds = v.trip_duration_seconds := rfl
    have g6 : (deriveRecord sch v).pickup_datetime = v.pickup_datetime := rfl
    have g7 : (deriveRecord sch v).dropoff_datetime = v.dropoff_datetime := rfl
    have hround : round4 du = du := by
      rw [hdeq]
      exact round4_intCast (dp - p)
    refine ⟨p, dp, du, ?_, ?_, ?_, hdeq, hdu1, hdu2⟩
    · rw [hrv]
      show (roundRecord sch (deriveRecord sch v)).pickup_datetime = _
      rw [e6, g6, hp]
    · rw [hrv]
      show (roundRecord sch (deriveRecord sch v)).dropoff_datetime = _
      rw [e7, g7, hdp]
    · rw [hrv]
      show (roundRecord sch (deriveRecord sch v)).trip_duration_seconds = _
      rw [e5, g5, hdur]
      simp [hround]

/-- C4: for any two input records that agree on the tuple
(pickup_datetime, dropoff_datetime, pickup_longitude, pickup_latitude) but
may differ elsewhere, the DeduplicatorStage keeps exactly the one appearing
first in input order and appends every later occurrence to the exclusion
list. -/
theorem C4_dedup_first_wins (l : List RawRecord) (i j : ℕ) (hij : i < j)
    (hj : j < l.length)
    (hkey : dupKey (l.getD i default) = dupKey (l.getD j default)) :
    l.getD j default ∈ (remove_duplicates l).2 ∧
    ((∀ k, k < i → dupKey (l.getD k default) ≠ dupKey (l.getD i default)) →
      l.getD i default ∈ (remove_duplicates l).1) ∧
    ((∀ k, k < i → dupKey (l.getD k default) ≠ dupKey (l.getD i default)) →
      l.getD j default ≠ l.getD i default →
      l.getD j default ∉ (remove_duplicates l).1) := by
  refine ⟨?_, ?_, ?_⟩
  · exact dedupGo_mem_excluded l [] j hj (Or.inr ⟨i, hij, hkey⟩)
  · intro hfirst
    exact dedupGo_mem_kept l [] i (by omega) (by simp) hfirst
  · intro hfirst hne hmem
    obtain ⟨_, m, hm, hget, hmfirst⟩ := dedupGo_kept_char l [] _ hmem
    rcases Nat.lt_trichotomy m i with hmi | hmi | hmi
    · -- an occurrence of the same key before the first occurrence i
      apply hfirst m hmi
      rw [hget, ← hkey]
    · -- the kept record at position i is the j-th value, contradiction
      rw [hmi] at hget
      exact hne hget.symm
    · -- the kept record has i before it with the same key
      apply hmfirst i hmi
      rw [hkey, ← hget]

theorem C4_dedup_first_wins_witness :
    (wRaw1.rid = 0 ∧ wRawMiss.rid = 1) ∧
    ({ wRaw1 with rid := 9, tip_amount := some 3 } : RawRecord) ∈
      (remove_duplicates [wRaw1, { wRaw1 with rid := 9, tip_amount := some 3 }]).2 ∧
    wRaw1 ∈ (remove_duplicates [wRaw1, { wRaw1 with rid := 9, tip_amount := some 3 }]).1 ∧
    ({ wRaw1 with rid := 9, tip_amount := some 3 } : RawRecord) ∉
      (remove_duplicates [wRaw1, { wRaw1 with rid := 9, tip_amount := some 3 }]).1 := by
  have h := C4_dedup_first_wins
    [wRaw1, { wRaw1 with rid := 9, tip_amount := some 3 }] 0 1
    (by omega) (by simp) rfl
  refine ⟨⟨rfl, rfl⟩, h.1, ?_, ?_⟩
  · exact h.2.1 (by omega)
  · refine h.2.2 (by omega) ?_
    intro hcontra
    exact absurd (congrArg RawRecord.rid hcontra) (by decide)

/-- C6: when both tip_amount and fare_amount columns are present, a
surviving record with fare_amount = 0 gets tip_percentage exactly 0 (the
.loc overwrite, never the division result), and a record with a non-zero
fare gets round(tip / fare * 100, 2). -/
theorem C6_zero_fare_tip (sch : Schema) (hTip : sch.hasTipAmount = true)
    (hFare : sch.hasFareAmount = true) (v : VRecord) :
    (v.fare_amount = some 0 → (deriveRecord sch v).tip_percentage = some 0) ∧
    (∀ f t, v.fare_amount = some f → f ≠ 0 → v.tip_amount = some t →
      (deriveRecord sch v).tip_percentage = some (round2 (t / f * 100))) := by
  constructor
  · intro h0
    simp [deriveRecord, hTip, hFare, h0]
  · intro f t hf hfne ht
    simp [deriveRecord, hTip, hFare, hf, ht, hfne]

/-- A raw row with every optional column populated. -/
def wRawD : RawRecord :=
  { wRaw1 with
    passenger_count := some 2
    trip_distance := some 1
    fare_amount := some 10
    tip_amount := some 3 }

/-- A VRecord with zero fare, as stage 5 would see it. -/
def wVZeroFare : VRecord :=
  { rid := 0
    pickup_datetime := some 100
    dropoff_datetime := some 160
    pickup_longitude := some (-74)
    pickup_latitude := some 41
    dropoff_longitude := some (-74)
    dropoff_latitude := some 41
    passenger_count := some 1
    trip_distance := some 1
    fare_amount := some 0
    tip_amount := some 5
    trip_duration_seconds := some 60 }

theorem C6_zero_fare_tip_witness :
    (deriveRecord wSchAll wVZeroFare).tip_percentage = some 0 ∧
    (deriveRecord wSchAll { wVZeroFare with fare_amount := some 10 }).tip_percentage =
      some (round2 (5 / 10 * 100)) :=
  ⟨(C6_zero_fare_tip wSchAll rfl rfl wVZeroFare).1 rfl,
   (C6_zero_fare_tip wSchAll rfl rfl { wVZeroFare with fare_amount := some 10 }).2
     10 5 rfl (by norm_num) rfl⟩

/-- The concrete stage-4 result of a one-row run. -/
def wStage4 : List VRecord × List VRecord :=
  (handle_outliers_and_invalid_records wSch
    (remove_duplicates (handle_missing_values wSch [wRaw1]).1).1).toOption.getD ([], [])

/-- The surviving record of that run. -/
def wV4 : VRecord := wStage4.1.getD 0 default

theorem C2_bounding_box_witness : inBoundingBox wV4 :=
  (C2_bounding_box wSch [wRaw1]).1 wStage4.1 wStage4.2 rfl wV4 (by decide)

theorem C3_duration_invariant_witness : durationInRange wV4 :=
  (C3_duration_invariant wSch [wRaw1]).1 wStage4.1 wStage4.2 rfl wV4 (by decide)

/-- C8: when the distance column is present, for every surviving record
the FeatureDeriver computes speed_kmh = (distance * 1.60934) /
(duration / 3600) and then nulls speed_kmh — without excluding the record
— exactly when the computed speed exceeds 120 or is negative; the record
stays in the working set with all its other fields intact. -/
theorem C8_speed_nulling (sch : Schema) (hD : sch.hasTripDistance = true)
    (l : List RawRecord) (k4 e4 : List VRecord)
    (h4 : handle_outliers_and_invalid_records sch
      (remove_duplicates (handle_missing_values sch l).1).1 = .ok (k4, e4))
    (v : VRecord) (hv : v ∈ k4) (d : ℚ) (hd : v.trip_distance = some d) :
    ∃ du, v.trip_duration_seconds = some du ∧ 0 < du ∧
      (((deriveRecord sch v).trip_speed_kmh = none ↔
        (120 < d * 1.60934 / (du / 3600) ∨ d * 1.60934 / (du / 3600) < 0)) ∧
       (¬(120 < d * 1.60934 / (du / 3600) ∨ d * 1.60934 / (du / 3600) < 0) →
        (deriveRecord sch v).trip_speed_kmh = some (d * 1.60934 / (du / 3600)))) ∧
      (deriveRecord sch v).toVRecord = v ∧
      deriveRecord sch v ∈ create_derived_features sch k4 := by
  obtain ⟨_, _, _, _, p, dp, du, hp, hdp, hdur, hdeq, hdu1, hdu2⟩ :=
    survivor_core sch l k4 e4 h4 v hv
  have hdune : ¬ du = 0 := ne_of_gt hdu1
  refine ⟨du, hdur, hdu1, ⟨?_, ?_⟩, rfl, ?_⟩
  · by_cases hcase : 120 < d * 1.60934 / (du / 3600) ∨ d * 1.60934 / (du / 3600) < 0
    · simp [deriveRecord, hD, hd, hdur, hdune, hcase]
    · simp [deriveRecord, hD, hd, hdur, hdune, hcase]
  · intro hcase
    simp [deriveRecord, hD, hd, hdur, hdune, hcase]
  · unfold create_derived_features
    exact List.mem_map_of_mem (deriveRecord sch) hv

/-- The concrete stage-4 result of a one-row run with all optional columns. -/
def wStage4D : List VRecord × List VRecord :=
  (handle_outliers_and_invalid_records wSchAll
    (remove_duplicates (handle_missing_values wSchAll [wRawD]).1).1).toOption.getD ([], [])

/-- The surviving record of that run. -/
def wV4D : VRecord := wStage4D.1.getD 0 default

theorem C8_speed_nulling_witness :
    ∃ du, wV4D.trip_duration_seconds = some du ∧ 0 < du ∧
      (((deriveRecord wSchAll wV4D).trip_speed_kmh = none ↔
        (120 < 1 * 1.60934 / (du / 3600) ∨ 1 * 1.60934 / (du / 3600) < 0)) ∧
       (¬(120 < 1 * 1.60934 / (du / 3600) ∨ 1 * 1.60934 / (du / 3600) < 0) →
        (deriveRecord wSchAll wV4D).trip_speed_kmh = some (1 * 1.60934 / (du / 3600)))) ∧
      (deriveRecord wSchAll wV4D).toVRecord = wV4D ∧
      deriveRecord wSchAll wV4D ∈ create_derived_features wSchAll wStage4D.1 :=
  C8_speed_nulling wSchAll rfl [wRawD] wStage4D.1 wStage4D.2 rfl wV4D (by decide) 1 rfl

theorem tsOK_false_elim (x : Option TS) (h : tsOK x = false) :
    ∃ tag, x = some (TS.invalid tag) := by
  cases x with
  | none => simp [tsOK] at h
  | some t =>
    cases t with
    | valid u => simp [tsOK] at h
    | invalid tag => exact ⟨tag, rfl⟩

theorem parseRecord_error_of_bad (r : RawRecord)
    (h : tsOK r.pickup_datetime = false ∨ tsOK r.dropoff_datetime = false) :
    ∃ e, parseRecord r = .error e := by
  cases he : parseRecord r with
  | error e => exact ⟨e, rfl⟩
  | ok v =>
    exfalso
    obtain ⟨_, _, _, _, _, _, _, _, _, hvp, hvd, _⟩ := parseRecord_ok_elim r v he
    rcases h with h | h
    · obtain ⟨tag, htag⟩ := tsOK_false_elim _ h
      rw [htag] at hvp
      simp [parseTS] at hvp
    · obtain ⟨tag, htag⟩ := tsOK_false_elim _ h
      rw [htag] at hvd
      simp [parseTS] at hvd

theorem stage4_error_of_bad (sch : Schema) (l2 : List RawRecord)
    (hbad : ∃ r ∈ l2, tsOK r.pickup_datetime = false ∨
      tsOK r.dropoff_datetime = false) :
    handle_outliers_and_invalid_records sch l2 =
      .error PErr.unparseableTimestamp := by
  obtain ⟨r, hr, hb⟩ := hbad
  unfold handle_outliers_and_invalid_records
  rw [mapM_error_of_mem parseRecord parseRecord_error_elim l2 r hr
    (parseRecord_error_of_bad r hb)]
  rfl

theorem process_all_error_of_bad (sch : Schema) (l : List RawRecord)
    (hbad : ∃ r ∈ (remove_duplicates (handle_missing_values sch l).1).1,
      tsOK r.pickup_datetime = false ∨ tsOK r.dropoff_datetime = false) :
    process_all sch l = .error PErr.unparseableTimestamp := by
  unfold process_all
  dsimp only
  rw [stage4_error_of_bad sch _ hbad]
  rfl

theorem process_all_ok_of_good (sch : Schema) (l : List RawRecord)
    (hts : ∀ r ∈ (remove_duplicates (handle_missing_values sch l).1).1,
      tsOK r.pickup_datetime = true ∧ tsOK r.dropoff_datetime = true)
    (hne : 0 < l.length) : ∃ out, process_all sch l = .ok out := by
  have hall : ∀ r2 ∈ (remove_duplicates (handle_missing_values sch l).1).1,
      ∃ v, parseRecord r2 = .ok v := by
    intro r2 hr2
    obtain ⟨h1, h2⟩ := hts r2 hr2
    exact parseRecord_ok_of_tsOK r2 h1 h2
  obtain ⟨parsed, hparsed⟩ := mapM_ok_of_forall parseRecord _ hall
  have hs4 : handle_outliers_and_invalid_records sch
      (remove_duplicates (handle_missing_values sch l).1).1 =
      .ok (parsed.filter (fun v => !invalidRecord sch v),
           parsed.filter (fun v => invalidRecord sch v)) := by
    unfold handle_outliers_and_invalid_records
    rw [hparsed]
    rfl
  unfold process_all
  dsimp only
  rw [hs4]
  simp only [bind, Except.bind]
  unfold generate_cleaning_report
  rw [if_neg (by dsimp only; omega)]
  exact ⟨_, rfl⟩

/-- C7 counterexample: an input containing a row whose pickup timestamp is
present but not parseable makes the pipeline raise — pd.to_datetime runs
with the default errors=raise at data_cleaner.py line 67 — instead of
excluding the row, logging it and continuing to completion as the claim
asserts. -/
theorem C7_counterexample :
    ({ wRaw1 with rid := 7, pickup_datetime := some (TS.invalid 0) } :
      RawRecord).pickup_datetime = some (TS.invalid 0) ∧
    process_all wSch [{ wRaw1 with rid := 7, pickup_datetime := some (TS.invalid 0) }] =
      .error PErr.unparseableTimestamp :=
  ⟨rfl, rfl⟩

/-- C7 amended: a row missing a required (null) field is excluded and
logged without an exception and the pipeline continues to completion —
provided every timestamp present on the rows that reach the
ValidityFilter parses and the input is nonempty — but a row with a
present-and-unparseable timestamp that reaches the ValidityFilter aborts
the entire pipeline with an exception rather than being excluded.  Rows
dropped by the MissingValueHandler never meet pd.to_datetime, so an
unparseable timestamp sitting on such a row does not stop the run. -/
theorem C7_row_defect_amended (sch : Schema) (l : List RawRecord) :
    ((∀ r ∈ (remove_duplicates (handle_missing_values sch l).1).1,
        tsOK r.pickup_datetime = true ∧ tsOK r.dropoff_datetime = true) →
      0 < l.length →
      ∃ out, process_all sch l = .ok out ∧
        ∀ r ∈ l, hasMissingCritical r = true →
          ExRec.raw r ∈ out.excluded_records) ∧
    ((∃ r ∈ (remove_duplicates (handle_missing_values sch l).1).1,
        tsOK r.pickup_datetime = false ∨ tsOK r.dropoff_datetime = false) →
      process_all sch l = .error PErr.unparseableTimestamp) := by
  constructor
  · intro hts hne
    obtain ⟨out, hout⟩ := process_all_ok_of_good sch l hts hne
    refine ⟨out, hout, ?_⟩
    intro r hr hmiss
    obtain ⟨k4, e4, hs4, hrec, hexc, hlog, hstats, hrep⟩ :=
      process_all_ok_elim sch l out hout
    rw [hexc]
    apply List.mem_append_left
    apply List.mem_append_left
    apply List.mem_map_of_mem
    unfold handle_missing_values
    rw [List.mem_filter]
    exact ⟨hr, by rw [hmiss]⟩
  · exact process_all_error_of_bad sch l

/-- A row with a null critical field that also carries an unparseable
timestamp: stage 2 drops it before pd.to_datetime ever sees it. -/
def wRawMissBad : RawRecord :=
  { wRaw1 with
    rid := 2
    dropoff_latitude := none
    pickup_datetime := some (TS.invalid 5) }

theorem C7_row_defect_amended_witness :
    (∃ out, process_all wSch [wRaw1, wRawMissBad] = .ok out ∧
      ∀ r ∈ [wRaw1, wRawMissBad], hasMissingCritical r = true →
        ExRec.raw r ∈ out.excluded_records) ∧
    process_all wSch [{ wRaw1 with rid := 8, dropoff_datetime := some (TS.invalid 1) }] =
      .error PErr.unparseableTimestamp :=
  ⟨(C7_row_defect_amended wSch [wRaw1, wRawMissBad]).1 (by decide) (by simp),
   (C7_row_defect_amended wSch
     [{ wRaw1 with rid := 8, dropoff_datetime := some (TS.invalid 1) }]).2
     ⟨{ wRaw1 with rid := 8, dropoff_datetime := some (TS.invalid 1) },
       by decide, by decide⟩⟩

/-- Position of the first occurrence of n in a list of indices. -/
def posOf (n : ℕ) : List ℕ → ℕ
  | [] => 0
  | m :: r => if m = n then 0 else posOf n r + 1

/-- One of 17 rows sharing a pickup timestamp, distinguished by rid and
dropoff timestamp. -/
def c5Raw (i : ℕ) : RawRecord :=
  { wRaw1 with rid := i, dropoff_datetime := some (TS.valid (160 + i)) }

/-- Seventeen valid rows with identical pickup timestamps, in rid order. -/
def c5Input : List RawRecord := (List.range 17).map c5Raw

/-- The pipeline output on those 17 rows. -/
def c5Out : PipelineOutput := (process_all wSch c5Input).toOption.getD default

/-- C5 counterexample: on 17 surviving records with identical pickup
timestamps — more than the 16-element insertion-sort cutoff of numpy
quicksort, so a partition runs — the final order of the equal-timestamp
records is not the input order: the run permutes the rids to
[0, 14, 13, ...], and in particular record 14 (later in input order)
precedes record 1, refuting the claimed stable-sort tie behavior of
sort_values with the default kind. -/
theorem C5_counterexample :
    c5Input.map (fun r => r.rid) = List.range 17 ∧
    c5Input.map (fun r => r.pickup_datetime) =
      List.replicate 17 (some (TS.valid 100)) ∧
    process_all wSch c5Input = .ok c5Out ∧
    c5Out.records.map (fun r => r.rid) =
      [0, 14, 13, 12, 11, 10, 9, 15, 8, 6, 5, 4, 3, 2, 1, 7, 16] ∧
    posOf 14 (c5Out.records.map (fun r => r.rid)) <
      posOf 1 (c5Out.records.map (fun r => r.rid)) := by
  refine ⟨by decide, by decide, rfl, by decide, by decide⟩

/-- The ordering a stable argsort realizes: position entries ascend by key
and, among equal keys, by original position. -/
def lexR (keys : List ℤ) (a b : ℕ) : Prop :=
  keys.getD a 0 < keys.getD b 0 ∨ (keys.getD a 0 = keys.getD b 0 ∧ a < b)

theorem insIdx_mem (keys : List ℤ) (i : ℕ) (acc : List ℕ) (x : ℕ) :
    x ∈ insIdx keys i acc ↔ x = i ∨ x ∈ acc := by
  rw [(insIdx_perm keys i acc).mem_iff]
  simp

theorem insIdx_pairwise (keys : List ℤ) (i : ℕ) :
    ∀ acc : List ℕ, acc.Pairwise (lexR keys) → (∀ j ∈ acc, j < i) →
      (insIdx keys i acc).Pairwise (lexR keys) := by
  intro acc
  induction acc with
  | nil =>
    intro _ _
    simp [insIdx]
  | cons j r ih =>
    intro hp hlt
    rcases List.pairwise_cons.mp hp with ⟨hjr, hr⟩
    unfold insIdx
    by_cases hc : keys.getD i 0 < keys.getD j 0
    · rw [if_pos hc]
      refine List.pairwise_cons.mpr ⟨?_, hp⟩
      intro x hx
      rcases List.mem_cons.mp hx with rfl | hx
      · exact Or.inl hc
      · rcases hjr x hx with hlt2 | ⟨heq2, _⟩
        · exact Or.inl (lt_trans hc hlt2)
        · exact Or.inl (heq2 ▸ hc)
    · rw [if_neg hc]
      refine List.pairwise_cons.mpr
        ⟨?_, ih hr (fun x hx => hlt x (List.mem_cons_of_mem j hx))⟩
      intro x hx
      rcases (insIdx_mem keys i r x).mp hx with rfl | hx
      · have hle : keys.getD j 0 ≤ keys.getD x 0 := le_of_not_lt hc
        rcases lt_or_eq_of_le hle with h | h
        · exact Or.inl h
        · exact Or.inr ⟨h, hlt j (List.mem_cons_self j r)⟩
      · exact hjr x hx

theorem foldl_insIdx_pairwise (keys : List ℤ) :
    ∀ (l acc : List ℕ), acc.Pairwise (lexR keys) →
      (∀ a ∈ acc, ∀ x ∈ l, a < x) → l.Pairwise (· < ·) →
      (l.foldl (fun a i => insIdx keys i a) acc).Pairwise (lexR keys) := by
  intro l
  induction l with
  | nil =>
    intro acc hp _ _
    simpa using hp
  | cons x xs ih =>
    intro acc hp hsep hl
    rw [List.foldl_cons]
    rcases List.pairwise_cons.mp hl with ⟨hxxs, hxs⟩
    apply ih
    · exact insIdx_pairwise keys x acc hp
        (fun a ha => hsep a ha x (List.mem_cons_self x xs))
    · intro a ha y hy
      rcases (insIdx_mem keys x acc a).mp ha with rfl | ha
      · exact hxxs y hy
      · exact hsep a ha y (List.mem_cons_of_mem x hy)
    · exact hxs

theorem insSortIdx_pairwise (keys : List ℤ) (n : ℕ) :
    (insSortIdx keys (List.range n)).Pairwise (lexR keys) := by
  unfold insSortIdx
  apply foldl_insIdx_pairwise
  · simp
  · simp
  · exact List.pairwise_lt_range n

theorem npArgsortInt_small (keys : List ℤ) (h : keys.length ≤ 16) :
    npArgsortInt keys = insSortIdx keys (List.range keys.length) := by
  unfold npArgsortInt
  dsimp only
  have hfuel : keys.length * keys.length + 64 =
      (keys.length * keys.length + 63) + 1 := by omega
  rw [hfuel]
  rw [introLoop.eq_2]
  rw [if_neg (by omega)]
  have hseg : segOf (List.range keys.length) 0 ((keys.length : ℤ) - 1) =
      List.range keys.length := by
    unfold segOf
    have h1 : (((keys.length : ℤ) - 1) - 0 + 1).toNat = keys.length := by omega
    rw [h1]
    simp
  rw [hseg]
  unfold segWrite
  have hlen : (insSortIdx keys (List.range keys.length)).length = keys.length := by
    have := (insSortIdx_perm keys (List.range keys.length)).length_eq
    simpa using this
  simp [hlen]

theorem filterMap_id_all_some :
    ∀ (keys : List (Option ℤ)), (∀ x ∈ keys, x.isSome = true) →
      keys.filterMap id = keys.map (fun o => o.getD 0) := by
  intro keys
  induction keys with
  | nil => intro _; rfl
  | cons a keys ih =>
    intro h
    cases a with
    | none =>
      have := h none (List.mem_cons_self none keys)
      simp at this
    | some x =>
      simp only [List.filterMap_cons, List.map_cons]
      rw [ih (fun y hy => h y (List.mem_cons_of_mem _ hy))]
      rfl

theorem sortIndexer_all_some (keys : List (Option ℤ))
    (h : ∀ x ∈ keys, x.isSome = true) :
    sortIndexer keys = npArgsortInt (keys.filterMap id) := by
  unfold sortIndexer
  dsimp only
  have h1 : (List.range keys.length).filter
      (fun i => (keys.getD i none).isSome) = List.range keys.length := by
    apply List.filter_eq_self.mpr
    intro i hi
    rw [List.mem_range] at hi
    rw [List.getD_eq_getElem?_getD, List.getElem?_eq_getElem hi]
    exact h _ (List.getElem_mem hi)
  have h2 : (List.range keys.length).filter
      (fun i => !(keys.getD i none).isSome) = [] := by
    rw [List.filter_eq_nil_iff]
    intro i hi
    rw [List.mem_range] at hi
    rw [List.getD_eq_getElem?_getD, List.getElem?_eq_getElem hi]
    simp [h _ (List.getElem_mem hi)]
  rw [h1, h2, List.append_nil]
  have hlen : (keys.filterMap id).length = keys.length :=
    filterMap_length_of_isSome id keys h
  have hid : ∀ p ∈ npArgsortInt (keys.filterMap id),
      (List.range keys.length).getD p 0 = p := by
    intro p hp
    have hplt := npArgsortInt_mem_lt _ p hp
    rw [hlen] at hplt
    rw [List.getD_eq_getElem?_getD, List.getElem?_range hplt]
    rfl
  calc (npArgsortInt (keys.filterMap id)).map
        (fun p => (List.range keys.length).getD p 0)
      = (npArgsortInt (keys.filterMap id)).map id := List.map_congr_left hid
    _ = npArgsortInt (keys.filterMap id) := List.map_id _

theorem mem_getD_of_lt {α : Type} (l : List α) (i : ℕ) (d : α)
    (h : i < l.length) : l.getD i d ∈ l := by
  rw [List.getD_eq_getElem?_getD, List.getElem?_eq_getElem h]
  exact List.getElem_mem h

theorem compact_getD (ws : List DRecord)
    (hall : ∀ r ∈ ws, r.pickup_datetime.isSome = true)
    (i : ℕ) (hi : i < ws.length) (t : ℤ)
    (ht : (ws.getD i default).pickup_datetime = some t) :
    ((ws.map (fun r => r.pickup_datetime)).filterMap id).getD i 0 = t := by
  rw [filterMap_id_all_some _ (by
    intro x hx
    rw [List.mem_map] at hx
    obtain ⟨r, hr, hrx⟩ := hx
    rw [← hrx]
    exact hall r hr)]
  rw [List.map_map]
  rw [List.getD_eq_getElem?_getD, List.getElem?_map,
    List.getElem?_eq_getElem hi]
  have hws : ws.getD i default = ws[i] := by
    rw [List.getD_eq_getElem?_getD, List.getElem?_eq_getElem hi]
    rfl
  rw [hws] at ht
  simp [Function.comp, ht]

theorem posOf_lt_posOf {R : ℕ → ℕ → Prop} :
    ∀ L : List ℕ, L.Pairwise R → ∀ i j : ℕ, i ∈ L → j ∈ L → ¬ R j i →
      i ≠ j → posOf i L < posOf j L := by
  intro L
  induction L with
  | nil =>
    intro _ i j hi
    simp at hi
  | cons a t ih =>
    intro hp i j hi hj hnR hne
    rcases List.pairwise_cons.mp hp with ⟨hat, ht⟩
    unfold posOf
    by_cases hai : a = i
    · rw [if_pos hai]
      rw [if_neg (by rw [hai]; exact hne)]
      omega
    · rw [if_neg hai]
      by_cases haj : a = j
      · exfalso
        have hit : i ∈ t := by
          rcases List.mem_cons.mp hi with h | h
          · exact absurd h.symm hai
          · exact h
        exact hnR (haj ▸ hat i hit)
      · rw [if_neg haj]
        have hit : i ∈ t := by
          rcases List.mem_cons.mp hi with h | h
          · exact absurd h.symm hai
          · exact h
        have hjt : j ∈ t := by
          rcases List.mem_cons.mp hj with h | h
          · exact absurd h.symm haj
          · exact h
        have := ih ht i j hit hjt hnR hne
        omega

/-- C5 amended: the Normalizer sorts by pickup timestamp with numpy's
default quicksort, which is not stable in general (see the 17-record
counterexample); the tie guarantee that holds is: when the working set has
at most 16 records — the insertion-sort path of aquicksort_ — the records
with identical pickup timestamps keep their prior relative order in the
sort indexer that normalize_and_format applies to the rounded rows. -/
theorem C5_sort_stability_amended (sch : Schema) (ws : List DRecord)
    (h16 : ws.length ≤ 16)
    (hall : ∀ r ∈ ws, r.pickup_datetime.isSome = true)
    (i j : ℕ) (hij : i < j) (hj : j < ws.length)
    (hkey : (ws.getD i default).pickup_datetime =
      (ws.getD j default).pickup_datetime) :
    normalize_and_format sch ws =
      (sortIndexer (ws.map (fun r => r.pickup_datetime))).filterMap
        (fun p => (ws.map (roundRecord sch))[p]?) ∧
    posOf i (sortIndexer (ws.map (fun r => r.pickup_datetime))) <
      posOf j (sortIndexer (ws.map (fun r => r.pickup_datetime))) := by
  have hkeys_eq : (ws.map (roundRecord sch)).map (fun r => r.pickup_datetime) =
      ws.map (fun r => r.pickup_datetime) := by
    rw [List.map_map]
    apply List.map_congr_left
    intro r _
    exact (roundRecord_coord_fields sch r).2.2.2.2.2.1
  constructor
  · unfold normalize_and_format
    dsimp only
    rw [hkeys_eq]
  · have hsome : ∀ x ∈ ws.map (fun r => r.pickup_datetime), x.isSome = true := by
      intro x hx
      rw [List.mem_map] at hx
      obtain ⟨r, hr, hrx⟩ := hx
      rw [← hrx]
      exact hall r hr
    rw [sortIndexer_all_some _ hsome]
    have hcklen : ((ws.map (fun r => r.pickup_datetime)).filterMap id).length =
        ws.length := by
      rw [filterMap_length_of_isSome id (ws.map (fun r => r.pickup_datetime)) hsome]
      simp
    rw [npArgsortInt_small _ (by rw [hcklen]; exact h16)]
    have hmem_i : (ws.getD i default) ∈ ws := mem_getD_of_lt ws i default (by omega)
    obtain ⟨t, ht⟩ := Option.isSome_iff_exists.mp (hall _ hmem_i)
    have htj : (ws.getD j default).pickup_datetime = some t := by rw [← hkey, ht]
    have hcki : ((ws.map (fun r => r.pickup_datetime)).filterMap id).getD i 0 = t :=
      compact_getD ws hall i (by omega) t ht
    have hckj : ((ws.map (fun r => r.pickup_datetime)).filterMap id).getD j 0 = t :=
      compact_getD ws hall j hj t htj
    have hperm := insSortIdx_perm ((ws.map (fun r => r.pickup_datetime)).filterMap id)
      (List.range ((ws.map (fun r => r.pickup_datetime)).filterMap id).length)
    have hpw := insSortIdx_pairwise ((ws.map (fun r => r.pickup_datetime)).filterMap id)
      ((ws.map (fun r => r.pickup_datetime)).filterMap id).length
    have hiL : i ∈ insSortIdx ((ws.map (fun r => r.pickup_datetime)).filterMap id)
        (List.range ((ws.map (fun r => r.pickup_datetime)).filterMap id).length) := by
      rw [hperm.mem_iff, List.mem_range, hcklen]
      omega
    have hjL : j ∈ insSortIdx ((ws.map (fun r => r.pickup_datetime)).filterMap id)
        (List.range ((ws.map (fun r => r.pickup_datetime)).filterMap id).length) := by
      rw [hperm.mem_iff, List.mem_range, hcklen]
      omega
    apply posOf_lt_posOf _ hpw i j hiL hjL ?_ (by omega)
    intro hR
    rcases hR with hlt | ⟨_, hji⟩
    · rw [hcki, hckj] at hlt
      exact lt_irrefl t hlt
    · omega

/-- A derived record used as concrete normalizer input. -/
def wD0 : DRecord :=
  { toVRecord := wVZeroFare
    trip_distance_km := none
    trip_speed_kmh := none
    fare_per_km := none
    hour_of_day := none
    day_of_week := none
    time_period := "night"
    distance_category := none
    tip_percentage := none }

/-- A second record with the same pickup timestamp as wD0. -/
def wD1 : DRecord := { wD0 with toVRecord := { wVZeroFare with rid := 1 } }

theorem C5_sort_stability_amended_witness :
    normalize_and_format wSch [wD0, wD1] =
      (sortIndexer ([wD0, wD1].map (fun r => r.pickup_datetime))).filterMap
        (fun p => ([wD0, wD1].map (roundRecord wSch))[p]?) ∧
    posOf 0 (sortIndexer ([wD0, wD1].map (fun r => r.pickup_datetime))) <
      posOf 1 (sortIndexer ([wD0, wD1].map (fun r => r.pickup_datetime))) :=
  C5_sort_stability_amended wSch [wD0, wD1] (by simp) (by decide) 0 1
    (by omega) (by simp) rfl
